import Mathlib

/-!
# A single-threaded coroutine task runtime (`src/example.cpp`)

Shallow embedding of the eager `task<int>` coroutine type, its promise, the
timer queue and the driver loop of `src/example.cpp`, followed by theorems
about them.

Conventions of the embedding.

* The program is single-threaded; its whole mutable state is the record
  `World`: the coroutine frames that were allocated, the global priority
  queue `timers`, the steady clock, the text written to `std::cout`, and a
  ghost trace `resumed` of the `handle.resume()` calls made by `loop`.
* A coroutine handle is `Option Nat`: `none` is the null handle, `some i`
  designates the `i`-th allocated frame.  Frames are never reused.
* A coroutine body is a value of `Coro`, a tree of the statements the bodies
  of this file are made of (`co_return`, `co_await` on a duration or a task,
  starting another coroutine, writing to `std::cout`) in continuation
  passing style.  What the compiler generates around them (frame
  allocation, `initial_suspend`, the `await_ready / await_suspend /
  await_resume` protocol, `return_value`, `final_suspend`, symmetric
  transfer, `unhandled_exception`) is the interpreter `exec`.
* `T` is `int` everywhere in the source; values are `Int`.  Time points are
  tick counts of the steady clock, which the program holds in signed 64-bit
  integers: the one sum the program computes on them, in
  `submit_timer_task`, is taken modulo 2^64 (`int64_wrap`).  The clock is the one thing the
  program does not determine: every function that reads it takes the
  sequence `el` of the ticks that go by before each reading, and the
  statements about termination assume that the clock advances between two
  readings.
* Execution is bounded by a fuel argument; an outcome records whether the
  run finished (`ok`), called `std::terminate`, hit undefined behaviour, or
  ran out of fuel, together with the world at that point.
-/

namespace Example

/-! ## Data model -/

/-- The handle type `std::coroutine_handle<>`: `none` is the null handle. -/
abbrev coroutine_handle := Option Nat

/-- The struct `task<int>`: a single member `handle`. -/
structure task where
  handle : coroutine_handle
  deriving DecidableEq, Repr

/-- The struct `task_promise_type<int>`: the members `value` and
`awaiting_coroutine`. -/
structure task_promise_type where
  value : Option Int
  awaiting_coroutine : coroutine_handle
  deriving DecidableEq, Repr

/-- One `<<` operand written to `std::cout`. -/
inductive cout_item where
  | str (s : String)
  | int (n : Int)
  | chr (c : Char)
  deriving DecidableEq, Repr

/-- The exception `std::runtime_error(what)`. -/
structure runtime_error where
  what : String
  deriving DecidableEq, Repr

/-- Coroutine bodies.  `locals` of `co_return` are the `task` objects in
scope, in the order their destructors run. -/
inductive Coro where
  | co_return (v : Int) (locals : List task)
  | co_await_seconds (n : Int) (k : Coro)
  | co_await_task (t : task) (k : Int → Coro)
  | call (body : Coro) (k : task → Coro)
  | cout (items : List cout_item) (k : Coro)

/-- The local struct `task_awaitable` of `await_transform(task<U>&)`. -/
structure task_awaitable where
  handle : coroutine_handle
  deriving DecidableEq, Repr

/-- Where a coroutine frame stands: executing (or on the stack of frames
being resumed), suspended in a `timer_awaitable`, suspended in a
`task_awaitable`, or suspended at `final_suspend`. -/
inductive suspend_point where
  | running
  | at_timer (k : Coro)
  | at_task (a : task_awaitable) (k : Int → Coro)
  | at_final

/-- A coroutine frame: the promise object, the suspension point, and
whether `destroy()` was called on it. -/
structure frame where
  promise : task_promise_type
  point : suspend_point
  destroyed : Bool

/-- The struct `timer_task`. -/
structure timer_task where
  target_time : Int
  handle : coroutine_handle
  deriving DecidableEq, Repr

/-- The whole program state. -/
structure World where
  frames : List frame
  timers : List timer_task
  clock : Int
  reads : Nat
  cout : List cout_item
  resumed : List (timer_task × Int)

/-- How a run ended. -/
inductive status where
  | ok
  | terminated (e : runtime_error)
  | undefined
  | out_of_fuel
  deriving DecidableEq, Repr

/-- Outcome of a run: how it ended and the world at that point. -/
structure Res where
  st : status
  world : World

/-- The state at program start: no frame, empty timer queue. -/
def World.init (clock : Int) : World :=
  { frames := [], timers := [], clock := clock, reads := 0, cout := [], resumed := [] }

/-! ## Frames and promises -/

/-- The call `handle.promise()`: defined on a frame that is allocated and
not destroyed. -/
def World.promise (w : World) (h : Nat) : Option task_promise_type :=
  match w.frames[h]? with
  | some f => if f.destroyed then none else some f.promise
  | none => none

/-- Replace frame `h` by `g` applied to it. -/
def World.modify_frame (w : World) (h : Nat) (g : frame → frame) : World :=
  { w with frames := w.frames.modify g h }

/-- Record the suspension point of frame `h`. -/
def World.set_point (w : World) (h : Nat) (p : suspend_point) : World :=
  w.modify_frame h (fun f => { f with point := p })

/-- The member `task_promise_type::return_value`: `value = std::move(val)`. -/
def task_promise_type.return_value (p : task_promise_type) (val : Int) : task_promise_type :=
  { p with value := some val }

/-- The call `return_value(val)` on the promise of frame `h`. -/
def World.return_value (w : World) (h : Nat) (val : Int) : World :=
  w.modify_frame h (fun f => { f with promise := f.promise.return_value val })

/-- The call `handle.destroy()`: the frame must be allocated, not yet
destroyed, and suspended.  (The destructors of task objects that a frame
suspended in the middle of its body still holds are bound inside its
continuation and are not run by this embedding; every frame this program
destroys is suspended at `final_suspend`, where none is left.) -/
def coroutine_handle_destroy (w : World) (h : Nat) : Option World :=
  match w.frames[h]? with
  | some f =>
    if f.destroyed then none
    else match f.point with
      | suspend_point.running => none
      | _ => some (w.modify_frame h (fun f => { f with destroyed := true }))
  | none => none

/-- The destructor `task::~task`: `if (handle) handle.destroy();`. -/
def task.dtor (w : World) (t : task) : Option World :=
  match t.handle with
  | some h => coroutine_handle_destroy w h
  | none => some w

/-- Destructors of the task objects of a scope, in order. -/
def destroy_locals : World → List task → Option World
  | w, [] => some w
  | w, t :: ts =>
    match t.dtor w with
    | some w1 => destroy_locals w1 ts
    | none => none

/-! ## The task interface -/

/-- The constructor `task(std::coroutine_handle<promise_type> handle)`. -/
def task.ctor (handle : coroutine_handle) : task := { handle := handle }

/-- The move constructor `task(task&& other)`:
`handle(std::exchange(other.handle, nullptr))`.  Returns the new object and
`other` afterwards. -/
def task.move_ctor (other : task) : task × task :=
  ({ handle := other.handle }, { handle := none })

/-- The move assignment `task& operator=(task&& other)`:
`if (handle) handle.destroy(); handle = other.handle;` (the source has no
`return` statement after these two).  Returns the world, `*this` and `other`
afterwards; `none` when `destroy()` is undefined. -/
def task.move_assign (w : World) (self other : task) : Option (World × task × task) :=
  match (match self.handle with
         | some h => coroutine_handle_destroy w h
         | none => some w) with
  | some w1 => some (w1, { handle := other.handle }, other)
  | none => none

/-- The member `task::is_ready`. -/
def task.is_ready (w : World) (t : task) : Bool :=
  match t.handle with
  | some h =>
    match w.promise h with
    | some p => p.value.isSome
    | none => false
  | none => false

/-- Result of `task::get`. -/
inductive get_result where
  | value (v : Int)
  | throws (e : runtime_error)
  | undefined
  deriving DecidableEq, Repr

/-- The member `task::get`: `if (handle) return std::move(*handle.promise().value);`
else throw.  Dereferencing an empty optional, or the promise of a frame that is
gone, is undefined.  Moving an `int` out of the optional leaves the optional
engaged with the same number: the world returned, the one after the call, is
the one before it. -/
def task.get (w : World) (t : task) : get_result × World :=
  match t.handle with
  | some h =>
    match w.promise h with
    | some p =>
      match p.value with
      | some v => (get_result.value v, w)
      | none => (get_result.undefined, w)
    | none => (get_result.undefined, w)
  | none => (get_result.throws { what := "get from task without promise" }, w)

/-! ## Timers -/

/-- Ticks of `std::chrono::steady_clock` in one second (its period is a
nanosecond in the standard libraries this program builds with). -/
def ticks_per_second : Int := 1000000000

/-- The value a signed 64-bit integer holds when the exact result of the
arithmetic is `x`: `x` itself when it lies in `[-2^63, 2^63)`, and otherwise
`x` reduced modulo 2^64 into that range (the language leaves signed overflow
undefined; two's complement wrap-around is what the machine does). -/
def int64_wrap (x : Int) : Int :=
  (x + 9223372036854775808) % 18446744073709551616 - 9223372036854775808

/-- The comparator `timer_task_before_cmp`. -/
def timer_task_before_cmp (left right : timer_task) : Bool :=
  decide (left.target_time > right.target_time)

/-- The member `top()` of `std::priority_queue` with comparator
`timer_task_before_cmp`: an entry that the comparator puts before no other
entry, that is, one of least `target_time`.  Which of several entries of
equal time is on top is not fixed by the library; here it is the one
pushed first. -/
def priority_queue_top : List timer_task → Option timer_task
  | [] => none
  | x :: xs =>
    match priority_queue_top xs with
    | none => some x
    | some y => if timer_task_before_cmp x y then some y else some x

/-- The member `pop()`: removes the top entry. -/
def priority_queue_pop (q : List timer_task) : List timer_task :=
  match priority_queue_top q with
  | some x => q.erase x
  | none => q

/-- The member `push(x)`. -/
def priority_queue_push (q : List timer_task) (x : timer_task) : List timer_task :=
  q ++ [x]

/-- The call `std::chrono::steady_clock::now()`.  `el i` is the number of
ticks that went by, beyond what was already accounted for, when the clock
is read for the `i`-th time; the clock never goes back. -/
def steady_clock_now (el : Nat → Nat) (w : World) : Int × World :=
  let t := w.clock + (el w.reads : Int)
  (t, { w with clock := t, reads := w.reads + 1 })

/-- The call `std::this_thread::sleep_until(t)`: returns when the clock has
reached `t`. -/
def sleep_until (w : World) (t : Int) : World :=
  { w with clock := max w.clock t }

/-- The function `submit_timer_task`:
`timers.push(timer_task{steady_clock::now() + timeout, handle})`.  The sum
converts `timeout` from seconds to ticks and adds it to the reading, both in
signed 64-bit arithmetic. -/
def submit_timer_task (el : Nat → Nat) (w : World) (handle : coroutine_handle)
    (timeout : Int) : World :=
  let (now, w1) := steady_clock_now el w
  let x : timer_task :=
    { target_time := int64_wrap (now + timeout * ticks_per_second), handle := handle }
  { w1 with timers := priority_queue_push w1.timers x }

/-! ## Awaiting a duration -/

/-- The local struct `timer_awaitable` of `await_transform(std::chrono::seconds)`. -/
structure timer_awaitable where
  duration : Int
  deriving DecidableEq, Repr

/-- The member `await_transform(std::chrono::seconds duration)`. -/
def await_transform_seconds (duration : Int) : timer_awaitable := { duration := duration }

/-- The member `timer_awaitable::await_ready`: always suspend. -/
def timer_awaitable.await_ready (_a : timer_awaitable) : Bool := false

/-- The member `timer_awaitable::await_suspend(h)`:
`submit_timer_task(h, this->duration)`. -/
def timer_awaitable.await_suspend (el : Nat → Nat) (w : World) (a : timer_awaitable)
    (h : coroutine_handle) : World :=
  submit_timer_task el w h a.duration

/-! ## The end of a coroutine -/

/-- The local struct `transfer_awaitable` of `final_suspend`. -/
structure transfer_awaitable where
  awaiting_coroutine : coroutine_handle
  deriving DecidableEq, Repr

/-- The member `final_suspend`: `transfer_awaitable{awaiting_coroutine}`. -/
def task_promise_type.final_suspend (p : task_promise_type) : transfer_awaitable :=
  { awaiting_coroutine := p.awaiting_coroutine }

/-- The member `transfer_awaitable::await_ready`: always stop at final
suspend. -/
def transfer_awaitable.await_ready (_a : transfer_awaitable) : Bool := false

/-- The member `transfer_awaitable::await_suspend`: the awaiting coroutine,
or, if there is none, `std::noop_coroutine()`, for which the null handle
stands here: resuming it does nothing. -/
def transfer_awaitable.await_suspend (a : transfer_awaitable) : coroutine_handle :=
  a.awaiting_coroutine

/-- The member `get_return_object`, called on the promise of frame `h`. -/
def get_return_object (h : Nat) : task := task.ctor (some h)

/-! ## Awaiting a task -/

/-- Result of `await_transform(task<U>&)`. -/
inductive transform_result where
  | awaitable (a : task_awaitable)
  | throws (e : runtime_error)
  | undefined
  deriving DecidableEq, Repr

/-- The member `await_transform(task<U>& task)`: throws on a null handle,
throws when the promise already has an `awaiting_coroutine`, and otherwise
returns `task_awaitable{task.handle}`.  Reading the promise of a frame that
is gone is undefined. -/
def await_transform_task (w : World) (t : task) : transform_result :=
  match t.handle with
  | none => transform_result.throws { what := "coroutine without promise awaited" }
  | some h =>
    match w.promise h with
    | none => transform_result.undefined
    | some p =>
      if p.awaiting_coroutine.isSome then
        transform_result.throws { what := "coroutine already awaited" }
      else transform_result.awaitable { handle := t.handle }

/-- The member `task_awaitable::await_ready`:
`handle.promise().value.has_value()`; `none` when undefined. -/
def task_awaitable.await_ready (w : World) (a : task_awaitable) : Option Bool :=
  match a.handle with
  | some h =>
    match w.promise h with
    | some p => some p.value.isSome
    | none => none
  | none => none

/-- The member `task_awaitable::await_suspend(h)`:
`handle.promise().awaiting_coroutine = h`; `none` when undefined. -/
def task_awaitable.await_suspend (w : World) (a : task_awaitable) (h : coroutine_handle) :
    Option World :=
  match a.handle with
  | some x =>
    match w.promise x with
    | some _ =>
      some (w.modify_frame x
        (fun f => { f with promise := { f.promise with awaiting_coroutine := h } }))
    | none => none
  | none => none

/-- The member `task_awaitable::await_resume`:
`std::move(*(handle.promise().value))`; `none` when undefined (frame gone or
optional empty). -/
def task_awaitable.await_resume (w : World) (a : task_awaitable) : Option Int :=
  match a.handle with
  | some h =>
    match w.promise h with
    | some p => p.value
    | none => none
  | none => none

/-! ## Running coroutines -/

/-- The call `handle.resume()`, given the interpreter `run` for the body that
follows the suspension point.  Resuming a null handle, a frame that is gone,
or a frame that is not suspended in an awaitable is undefined. -/
def resume_with (run : Nat → Coro → World → Res) (handle : coroutine_handle) (w : World) :
    Res :=
  match handle with
  | none => { st := status.undefined, world := w }
  | some h =>
    match w.frames[h]? with
    | none => { st := status.undefined, world := w }
    | some f =>
      if f.destroyed then { st := status.undefined, world := w }
      else match f.point with
        | suspend_point.at_timer k => run h k (w.set_point h suspend_point.running)
        | suspend_point.at_task a k =>
          match a.await_resume w with
          | some v => run h (k v) (w.set_point h suspend_point.running)
          | none => { st := status.undefined, world := w }
        | _ => { st := status.undefined, world := w }

/-- Execute the body `c` of the running coroutine frame `h` until the frame
suspends; control then returns to whoever called or resumed it. -/
def exec (el : Nat → Nat) : Nat → Nat → Coro → World → Res
  | 0, _, _, w => { st := status.out_of_fuel, world := w }
  | fuel + 1, h, c, w =>
    match c with
    | Coro.cout items k => exec el fuel h k { w with cout := w.cout ++ items }
    | Coro.co_await_seconds n k =>
      let a := await_transform_seconds n
      if a.await_ready then exec el fuel h k w
      else { st := status.ok,
             world := a.await_suspend el (w.set_point h (suspend_point.at_timer k)) (some h) }
    | Coro.co_await_task t k =>
      match await_transform_task w t with
      | transform_result.throws e =>
        -- unhandled_exception(): std::terminate()
        { st := status.terminated e, world := w }
      | transform_result.undefined => { st := status.undefined, world := w }
      | transform_result.awaitable a =>
        match a.await_ready w with
        | none => { st := status.undefined, world := w }
        | some true =>
          match a.await_resume w with
          | some v => exec el fuel h (k v) w
          | none => { st := status.undefined, world := w }
        | some false =>
          match a.await_suspend (w.set_point h (suspend_point.at_task a k)) (some h) with
          | some w1 => { st := status.ok, world := w1 }
          | none => { st := status.undefined, world := w }
    | Coro.call body k =>
      -- new frame, promise constructed, get_return_object(), initial_suspend()
      -- is suspend_never: the body starts at once
      let g := w.frames.length
      let f : frame := { promise := { value := none, awaiting_coroutine := none },
                         point := suspend_point.running, destroyed := false }
      let w1 : World := { w with frames := w.frames ++ [f] }
      match exec el fuel g body w1 with
      | { st := status.ok, world := w2 } => exec el fuel h (k (get_return_object g)) w2
      | r => r
    | Coro.co_return v locals =>
      let w1 := w.return_value h v
      match destroy_locals w1 locals with
      | none => { st := status.undefined, world := w1 }
      | some w2 =>
        -- the coroutine stops at final_suspend(), whose await_ready() is false, and
        -- control is transferred to the handle its await_suspend returns
        match w2.promise h with
        | none => { st := status.undefined, world := w2 }
        | some p =>
          let w3 := w2.set_point h suspend_point.at_final
          match p.final_suspend.await_suspend with
          | some c => resume_with (exec el fuel) (some c) w3
          | none => { st := status.ok, world := w3 }

/-- The call `handle.resume()`. -/
def coroutine_handle_resume (el : Nat → Nat) (fuel : Nat) (handle : coroutine_handle)
    (w : World) : Res :=
  resume_with (exec el fuel) handle w

/-- Calling a coroutine function from ordinary code (`main`): allocates the
frame, runs the body to its first suspension and returns the task. -/
def start (el : Nat → Nat) (fuel : Nat) (body : Coro) (w : World) : Res × task :=
  let g := w.frames.length
  let f : frame := { promise := { value := none, awaiting_coroutine := none },
                     point := suspend_point.running, destroyed := false }
  let w1 : World := { w with frames := w.frames ++ [f] }
  (exec el fuel g body w1, get_return_object g)

/-- The function `loop`. -/
def loop (el : Nat → Nat) : Nat → World → Res
  | 0, w => { st := status.out_of_fuel, world := w }
  | fuel + 1, w =>
    match priority_queue_top w.timers with
    | none => { st := status.ok, world := w }
    | some timer =>
      let (now, w1) := steady_clock_now el w
      if timer.target_time < now then
        let handle := timer.handle
        let w2 : World := { w1 with timers := priority_queue_pop w1.timers,
                                    resumed := w1.resumed ++ [(timer, now)] }
        match coroutine_handle_resume el fuel handle w2 with
        | { st := status.ok, world := w3 } => loop el fuel w3
        | r => r
      else
        loop el fuel (sleep_until w1 timer.target_time)

/-! ## The example coroutines -/

/-- The coroutine `wait_n`. -/
def wait_n (n : Int) : Coro :=
  Coro.cout [cout_item.str "before wait ", cout_item.int n, cout_item.chr (Char.ofNat 10)]
    (Coro.co_await_seconds n
      (Coro.cout [cout_item.str "after wait ", cout_item.int n, cout_item.chr (Char.ofNat 10)]
        (Coro.co_return n [])))

/-- The array the range-for of `test` walks: the string literal with its
terminating zero character. -/
def hello_world : List Char := "hello world\n".toList ++ [Char.ofNat 0]

/-- The range-for of `test`: write each character and wait one second. -/
def test_for : List Char → Coro → Coro
  | [], k => k
  | c :: cs, k => Coro.cout [cout_item.chr c] (Coro.co_await_seconds 1 (test_for cs k))

/-- The coroutine `test` after its range-for.  The language leaves open
which operand of `co_await w2 + co_await w3` is evaluated first;
`left_first` says whether it is the left one. -/
def test_rest (left_first : Bool) : Coro :=
  Coro.cout [cout_item.str "test step 1\n"]
    (Coro.call (wait_n 3) fun w3 =>
      Coro.cout [cout_item.str "test step 2\n"]
        (Coro.call (wait_n 2) fun w2 =>
          Coro.cout [cout_item.str "test step 3\n"]
            (Coro.call (wait_n 1) fun w1 =>
              let after (r : Int) : Coro :=
                Coro.cout [cout_item.str "awaiting already computed coroutine\n"]
                  (Coro.co_await_task w1 fun c =>
                    Coro.co_return (c + r) [w1, w2, w3])
              Coro.cout [cout_item.str "test step 4\n"]
                (if left_first then
                  Coro.co_await_task w2 fun a => Coro.co_await_task w3 fun b => after (a + b)
                else
                  Coro.co_await_task w3 fun b => Coro.co_await_task w2 fun a => after (a + b)))))

/-- The coroutine `test`. -/
def test (left_first : Bool) : Coro := test_for hello_world (test_rest left_first)

/-- The function `main` up to the call of `result.get()`: start `body`, run
`loop`, read the result. -/
def main_ (el : Nat → Nat) (fuel : Nat) (body : Coro) (clock : Int) : status × get_result :=
  match start el fuel body (World.init clock) with
  | ({ st := status.ok, world := w1 }, result) =>
    match loop el fuel w1 with
    | { st := status.ok, world := w2 } => (status.ok, (result.get w2).1)
    | r => (r.st, get_result.undefined)
  | (r, _) => (r.st, get_result.undefined)

/-! ## Predicates used in the statements -/

/-- How one frame may change between two worlds: a registered waiter stays,
a destroyed frame stays destroyed, and, when `fixed`, a frame that is running
or at `final_suspend` keeps its suspension point and its value. -/
def frame_step (fixed : Prop) (f f' : frame) : Prop :=
  (∀ c, f.promise.awaiting_coroutine = some c → f'.promise.awaiting_coroutine = some c) ∧
  (f.destroyed = true → f'.destroyed = true) ∧
  (fixed → (f.point = suspend_point.running ∨ f.point = suspend_point.at_final) →
    f'.point = f.point ∧ f'.promise.value = f.promise.value)

/-- How the world may change while coroutine code runs on behalf of frame `h`
(`none`: on behalf of a frame that was suspended in an awaitable): timer
entries are only added, the trace of `loop` is not touched, every frame stays
allocated and changes as `frame_step` allows, all frames but `h` being
fixed. -/
def evolves (h : Option Nat) (w w' : World) : Prop :=
  (∃ l, w'.timers = w.timers ++ l) ∧ w'.resumed = w.resumed ∧
  ∀ i f, w.frames[i]? = some f →
    ∃ f', w'.frames[i]? = some f' ∧ frame_step (h ≠ some i) f f'

/-- The part of the trace of `loop` that a run from `w` to `w'` added: the
entries `loop` popped and resumed, each with the clock reading it was compared
with, in the order of the `handle.resume()` calls. -/
def new_resumed (w w' : World) : List (timer_task × Int) :=
  w'.resumed.drop w.resumed.length

/-- Scenario A: `wait_n(3)`, `wait_n(2)`, `wait_n(1)` started in that order
from `main`, on the clock `el`, before `loop` is called. -/
def scenario_a (el : Nat → Nat) : World :=
  (start el 10 (wait_n 1)
    (start el 10 (wait_n 2)
      (start el 10 (wait_n 3) (World.init 0)).1.world).1.world).1.world

/-- The function `loop`, called in world `w`, returns, and the world it returns
in satisfies `Q`. -/
def loop_returns (el : Nat → Nat) (w : World) (Q : World → Prop) : Prop :=
  ∃ n w', loop el n w = { st := status.ok, world := w' } ∧ Q w'

/-- A frame suspended at `final_suspend` with value `v` and no waiter. -/
def completed_frame (v : Int) : frame :=
  { promise := { value := some v, awaiting_coroutine := none },
    point := suspend_point.at_final, destroyed := false }

/-- A running frame without value and without waiter. -/
def fresh_frame : frame :=
  { promise := { value := none, awaiting_coroutine := none },
    point := suspend_point.running, destroyed := false }

/-- A frame suspended in a duration wait, followed by `co_return v`. -/
def sleeping_frame (v : Int) : frame :=
  { promise := { value := none, awaiting_coroutine := none },
    point := suspend_point.at_timer (Coro.co_return v []), destroyed := false }

/-- A frame without value whose promise has the waiter `c`, suspended in a
duration wait. -/
def awaited_frame (c : Nat) : frame :=
  { promise := { value := none, awaiting_coroutine := some c },
    point := suspend_point.at_timer (Coro.co_return 0 []), destroyed := false }

/-- A world made of the given frames and timer entries, at clock reading
`clock`. -/
def world_of (frames : List frame) (timers : List timer_task) (clock : Int) : World :=
  { frames := frames, timers := timers, clock := clock, reads := 0, cout := [], resumed := [] }

/-- A clock on which one tick goes by between two readings. -/
def unit_clock : Nat → Nat := fun _ => 1

/-- A body that starts a task completing at once and awaits it twice. -/
def await_twice : Coro :=
  Coro.call (Coro.co_return 7 []) fun x =>
    Coro.co_await_task x fun a =>
      Coro.co_await_task x fun b =>
        Coro.co_return (a + b) [x]

/-- A body that waits 9223372037 seconds, a value `std::chrono::seconds`
holds, and returns 1. -/
def long_wait : Coro :=
  Coro.co_await_seconds 9223372037 (Coro.co_return 1 [])

theorem exec_cout (el : Nat → Nat) (n h : Nat) (items : List cout_item) (k : Coro) (w : World) :
    exec el (n + 1) h (Coro.cout items k) w = exec el n h k { w with cout := w.cout ++ items } := by
  rw [exec]

theorem exec_seconds (el : Nat → Nat) (n h : Nat) (d : Int) (k : Coro) (w : World) :
    exec el (n + 1) h (Coro.co_await_seconds d k) w
      = { st := status.ok,
          world := submit_timer_task el (w.set_point h (suspend_point.at_timer k)) (some h) d } := by
  rw [exec]
  rfl

theorem exec_task (el : Nat → Nat) (n h : Nat) (t : task) (k : Int → Coro) (w : World) :
    exec el (n + 1) h (Coro.co_await_task t k) w
      = match await_transform_task w t with
        | transform_result.throws e => { st := status.terminated e, world := w }
        | transform_result.undefined => { st := status.undefined, world := w }
        | transform_result.awaitable a =>
          match a.await_ready w with
          | none => { st := status.undefined, world := w }
          | some true =>
            match a.await_resume w with
            | some v => exec el n h (k v) w
            | none => { st := status.undefined, world := w }
          | some false =>
            match a.await_suspend (w.set_point h (suspend_point.at_task a k)) (some h) with
            | some w1 => { st := status.ok, world := w1 }
            | none => { st := status.undefined, world := w } := by
  rw [exec]

theorem exec_call (el : Nat → Nat) (n h : Nat) (body : Coro) (k : task → Coro) (w : World) :
    exec el (n + 1) h (Coro.call body k) w
      = match exec el n w.frames.length body
            { w with frames := w.frames ++
                [{ promise := { value := none, awaiting_coroutine := none },
                   point := suspend_point.running, destroyed := false }] } with
        | { st := status.ok, world := w2 } => exec el n h (k { handle := some w.frames.length }) w2
        | r => r := by
  rw [exec]
  rfl

theorem exec_return (el : Nat → Nat) (n h : Nat) (v : Int) (locals : List task) (w : World) :
    exec el (n + 1) h (Coro.co_return v locals) w
      = match destroy_locals (w.return_value h v) locals with
        | none => { st := status.undefined, world := w.return_value h v }
        | some w2 =>
          match w2.promise h with
          | none => { st := status.undefined, world := w2 }
          | some p =>
            match p.awaiting_coroutine with
            | some c => resume_with (exec el n) (some c) (w2.set_point h suspend_point.at_final)
            | none => { st := status.ok, world := w2.set_point h suspend_point.at_final } := by
  rw [exec]
  rfl


theorem frames_modify_frame (w : World) (h : Nat) (g : frame → frame) (i : Nat) :
    (w.modify_frame h g).frames[i]? = if h = i then (w.frames[i]?).map g else w.frames[i]? := by
  unfold World.modify_frame
  simp only [List.getElem?_modify]
  by_cases hi : h = i
  · simp [hi]
  · cases hw : w.frames[i]? <;> simp [hi]

theorem promise_set_point (w : World) (h : Nat) (pt : suspend_point) (i : Nat) :
    (w.set_point h pt).promise i = w.promise i := by
  unfold World.promise World.set_point
  rw [frames_modify_frame]
  by_cases hi : h = i
  · cases hw : w.frames[i]? <;> simp [hi, hw]
  · simp [hi]

/-! ## Awaiting a task: failures and the fast path -/

/-- C4: awaiting a task throws "coroutine without promise awaited" exactly
when the handle is null, throws "coroutine already awaited" exactly when the
handle designates a live frame whose promise has an awaiting coroutine, and
when it throws the coroutine ends in `std::terminate` with the world (all
promises, the timer queue) as it was. -/
theorem await_on_task_failure_conditions (el : Nat → Nat) (fuel h : Nat) (k : Int → Coro)
    (w : World) (other : task) :
    (await_transform_task w other
        = transform_result.throws { what := "coroutine without promise awaited" }
      ↔ other.handle = none) ∧
    (await_transform_task w other
        = transform_result.throws { what := "coroutine already awaited" }
      ↔ ∃ x p c, other.handle = some x ∧ w.promise x = some p ∧
          p.awaiting_coroutine = some c) ∧
    (∀ e, await_transform_task w other = transform_result.throws e →
      exec el (fuel + 1) h (Coro.co_await_task other k) w
        = { st := status.terminated e, world := w }) := by
  refine ⟨?_, ?_, ?_⟩
  · unfold await_transform_task
    cases hh : other.handle with
    | none => simp
    | some x =>
      cases hp : w.promise x with
      | none => simp [hp]
      | some p =>
        cases hc : p.awaiting_coroutine <;> simp [hp, hc]
  · unfold await_transform_task
    cases hh : other.handle with
    | none => simp
    | some x =>
      cases hp : w.promise x with
      | none => simp [hp]
      | some p =>
        cases hc : p.awaiting_coroutine <;> simp [hp, hc]
  · intro e he
    simp [exec, he]

/-- Instance of C4 on a world whose frame 0 is awaited by frame 1. -/
theorem await_on_task_failure_conditions_witness :
    exec unit_clock 1 1 (Coro.co_await_task { handle := none } fun v => Coro.co_return v [])
        (world_of [awaited_frame 1, fresh_frame] [] 0)
      = { st := status.terminated { what := "coroutine without promise awaited" },
          world := world_of [awaited_frame 1, fresh_frame] [] 0 } :=
  (await_on_task_failure_conditions unit_clock 0 1 (fun v => Coro.co_return v [])
    (world_of [awaited_frame 1, fresh_frame] [] 0) { handle := none }).2.2 _
    ((await_on_task_failure_conditions unit_clock 0 1 (fun v => Coro.co_return v [])
      (world_of [awaited_frame 1, fresh_frame] [] 0) { handle := none }).1.mpr rfl)

/-- C8: awaiting a live task whose value is set and that has no waiter does
not suspend: the body goes on at once with the stored value, in the same
world (same timer queue, same promises, no waiter registered). -/
theorem await_completed_task_fast_path (el : Nat → Nat) (fuel h x : Nat) (k : Int → Coro)
    (w : World) (p : task_promise_type) (v : Int)
    (hp : w.promise x = some p) (hv : p.value = some v)
    (hw : p.awaiting_coroutine = none) :
    exec el (fuel + 1) h (Coro.co_await_task { handle := some x } k) w
      = exec el fuel h (k v) w := by
  simp [exec, await_transform_task, task_awaitable.await_ready,
    task_awaitable.await_resume, hp, hv, hw]

/-- Instance of C8: frame 1 awaits the completed frame 0 and goes on with its
value 5 in the same world. -/
theorem await_completed_task_fast_path_witness :
    exec unit_clock 2 1 (Coro.co_await_task { handle := some 0 } fun v => Coro.co_return v [])
        (world_of [completed_frame 5, fresh_frame] [] 0)
      = exec unit_clock 1 1 (Coro.co_return 5 [])
        (world_of [completed_frame 5, fresh_frame] [] 0) :=
  await_completed_task_fast_path unit_clock 1 1 0 (fun v => Coro.co_return v [])
    (world_of [completed_frame 5, fresh_frame] [] 0)
    { value := some 5, awaiting_coroutine := none } 5 rfl rfl rfl

/-! ## The task interface: `get`, `is_ready`, moves -/

/-- C10: `get` throws exactly when the handle is null, and what it throws is
"get from task without promise"; on a live frame whose value is set it returns
the value, and `is_ready` is true in the world after the call. -/
theorem get_throws_iff_not_bound (w : World) (t : task) :
    (∀ e, (t.get w).1 = get_result.throws e ↔
      (t.handle = none ∧ e = { what := "get from task without promise" })) ∧
    (∀ h p v, t.handle = some h → w.promise h = some p → p.value = some v →
      (t.get w).1 = get_result.value v ∧ t.is_ready (t.get w).2 = true) := by
  constructor
  · intro e
    unfold task.get
    cases hh : t.handle with
    | none =>
      simp only [get_result.throws.injEq, true_and]
      exact eq_comm
    | some x =>
      cases hp : w.promise x with
      | none => simp [hp]
      | some p => cases hv : p.value <;> simp [hp, hv]
  · intro h p v hh hp hv
    simp [task.get, task.is_ready, hh, hp, hv]

/-- Instance of C10 on a completed frame holding 5. -/
theorem get_throws_iff_not_bound_witness :
    ((task.ctor (some 0)).get (world_of [completed_frame 5] [] 0)).1 = get_result.value 5 ∧
    (task.ctor (some 0)).is_ready
      ((task.ctor (some 0)).get (world_of [completed_frame 5] [] 0)).2 = true :=
  (get_throws_iff_not_bound (world_of [completed_frame 5] [] 0) (task.ctor (some 0))).2
    0 { value := some 5, awaiting_coroutine := none } 5 rfl rfl rfl

/-- C9 at a concrete input: the move constructor leaves the source with a null
handle, but after the move assignment `a = std::move(b)` with `a` owning frame
0 and `b` owning frame 1, frame 0 is destroyed, `a` designates frame 1 and `b`
still designates frame 1 as well. -/
theorem move_assign_keeps_source_handle :
    task.move_ctor { handle := some 1 } = ({ handle := some 1 }, { handle := none }) ∧
    (task.move_assign (world_of [completed_frame 5, completed_frame 6] [] 0)
        { handle := some 0 } { handle := some 1 }).map
      (fun r => (r.1.frames.map (fun f => f.destroyed), r.2.1, r.2.2))
      = some ([true, false], { handle := some 1 }, { handle := some 1 }) := by
  constructor <;> rfl

/-! ## The timer queue -/

theorem priority_queue_top_mem :
    ∀ (q : List timer_task) (e : timer_task), priority_queue_top q = some e → e ∈ q
  | [], e, h => by simp [priority_queue_top] at h
  | x :: xs, e, h => by
    unfold priority_queue_top at h
    cases hxs : priority_queue_top xs with
    | none =>
      rw [hxs] at h
      simp only [Option.some.injEq] at h
      simp [← h]
    | some y =>
      rw [hxs] at h
      have hy := priority_queue_top_mem xs y hxs
      by_cases hc : timer_task_before_cmp x y = true
      · simp only [hc, if_true, Option.some.injEq] at h
        subst h
        exact List.mem_cons_of_mem _ hy
      · simp only [hc, Bool.false_eq_true, if_false, Option.some.injEq] at h
        simp [← h]

theorem priority_queue_top_none :
    ∀ (q : List timer_task), priority_queue_top q = none → q = []
  | [], _ => rfl
  | x :: xs, h => by
    unfold priority_queue_top at h
    cases hxs : priority_queue_top xs with
    | none => rw [hxs] at h; simp at h
    | some y =>
      rw [hxs] at h
      by_cases hc : timer_task_before_cmp x y = true <;> simp [hc] at h

theorem priority_queue_top_le :
    ∀ (q : List timer_task) (e : timer_task), priority_queue_top q = some e →
      ∀ x ∈ q, e.target_time ≤ x.target_time
  | [], e, h => by simp [priority_queue_top] at h
  | z :: zs, e, h => by
    unfold priority_queue_top at h
    cases hzs : priority_queue_top zs with
    | none =>
      rw [hzs] at h
      simp only [Option.some.injEq] at h
      have hnil := priority_queue_top_none zs hzs
      subst hnil
      subst h
      intro x hx
      simp only [List.mem_singleton] at hx
      subst hx
      exact le_refl _
    | some y =>
      rw [hzs] at h
      have ih := priority_queue_top_le zs y hzs
      intro x hx
      by_cases hc : timer_task_before_cmp z y = true
      · simp only [hc, if_true, Option.some.injEq] at h
        subst h
        simp only [timer_task_before_cmp, gt_iff_lt, decide_eq_true_eq] at hc
        rcases List.mem_cons.mp hx with hxz | hxz
        · subst hxz; exact le_of_lt hc
        · exact ih x hxz
      · simp only [hc, Bool.false_eq_true, if_false, Option.some.injEq] at h
        subst h
        simp only [timer_task_before_cmp, gt_iff_lt, decide_eq_true_eq, not_lt] at hc
        rcases List.mem_cons.mp hx with hxz | hxz
        · subst hxz; exact le_refl _
        · exact le_trans hc (ih x hxz)

theorem loop_step (el : Nat → Nat) (fuel : Nat) (w : World)
    (e : timer_task) (htop : priority_queue_top w.timers = some e) :
    (e.target_time < w.clock + (el w.reads : Int) →
      loop el (fuel + 1) w =
        match coroutine_handle_resume el fuel e.handle
          { w with clock := w.clock + (el w.reads : Int), reads := w.reads + 1,
                   timers := w.timers.erase e,
                   resumed := w.resumed ++ [(e, w.clock + (el w.reads : Int))] } with
        | { st := status.ok, world := w3 } => loop el fuel w3
        | r => r) ∧
    (¬ e.target_time < w.clock + (el w.reads : Int) →
      loop el (fuel + 1) w =
        loop el fuel { w with clock := max (w.clock + (el w.reads : Int)) e.target_time,
                              reads := w.reads + 1 }) := by
  constructor
  · intro hlt
    simp [loop, htop, steady_clock_now, hlt, priority_queue_pop]
  · intro hge
    simp [loop, htop, steady_clock_now, hge, sleep_until]

/-- C6, as the code has it: when the timer queue is not empty its top entry
`e` is an entry of least wake time; an iteration of `loop` reads the clock,
and if the wake time of `e` is strictly less than the reading it removes `e`
from the queue and resumes its handle, going on with the loop when the
resumption returns; otherwise it leaves queue, frames and trace as they are,
resumes nothing, and sleeps until the wake time. -/
theorem loop_extracts_iff_strictly_due (el : Nat → Nat) (fuel : Nat) (w : World)
    (e : timer_task) (htop : priority_queue_top w.timers = some e) :
    e ∈ w.timers ∧ (∀ x ∈ w.timers, e.target_time ≤ x.target_time) ∧
    (e.target_time < w.clock + (el w.reads : Int) →
      loop el (fuel + 1) w =
        match coroutine_handle_resume el fuel e.handle
          { w with clock := w.clock + (el w.reads : Int), reads := w.reads + 1,
                   timers := w.timers.erase e,
                   resumed := w.resumed ++ [(e, w.clock + (el w.reads : Int))] } with
        | { st := status.ok, world := w3 } => loop el fuel w3
        | r => r) ∧
    (¬ e.target_time < w.clock + (el w.reads : Int) →
      loop el (fuel + 1) w =
        loop el fuel { w with clock := max (w.clock + (el w.reads : Int)) e.target_time,
                              reads := w.reads + 1 }) := by
  exact ⟨priority_queue_top_mem _ _ htop, priority_queue_top_le _ _ htop,
    (loop_step el fuel w e htop).1, (loop_step el fuel w e htop).2⟩

/-- Instance of C6: the only entry wakes at tick 5; read at tick 5 it stays,
read at tick 7 it is removed and its coroutine is resumed. -/
theorem loop_extracts_iff_strictly_due_witness :
    loop unit_clock 1 (world_of [sleeping_frame 1] [{ target_time := 5, handle := some 0 }] 6)
      = (match coroutine_handle_resume unit_clock 0 (some 0)
          { world_of [sleeping_frame 1] [{ target_time := 5, handle := some 0 }] 6 with
            clock := 7, reads := 1, timers := [],
            resumed := [({ target_time := 5, handle := some 0 }, 7)] } with
        | { st := status.ok, world := w3 } => loop unit_clock 0 w3
        | r => r) :=
  (loop_extracts_iff_strictly_due unit_clock 0
    (world_of [sleeping_frame 1] [{ target_time := 5, handle := some 0 }] 6)
    { target_time := 5, handle := some 0 } rfl).2.2.1 (by decide)

/-- C6 as stated fails: an entry whose wake time 5 equals the clock reading 5
(so wake time ≤ now) is on top of the queue, and the iteration of `loop` that
reads the clock leaves it in the queue and resumes nothing. -/
theorem loop_keeps_entry_due_exactly_now :
    priority_queue_top
        (world_of [sleeping_frame 1] [{ target_time := 5, handle := some 0 }] 4).timers
      = some { target_time := 5, handle := some 0 } ∧
    (steady_clock_now unit_clock
        (world_of [sleeping_frame 1] [{ target_time := 5, handle := some 0 }] 4)).1 = 5 ∧
    (5 : Int) ≤ 5 ∧
    (loop unit_clock 1
        (world_of [sleeping_frame 1] [{ target_time := 5, handle := some 0 }] 4)).world.timers
      = [{ target_time := 5, handle := some 0 }] ∧
    (loop unit_clock 1
        (world_of [sleeping_frame 1] [{ target_time := 5, handle := some 0 }] 4)).world.resumed
      = [] ∧
    (loop unit_clock 1
        (world_of [sleeping_frame 1] [{ target_time := 5, handle := some 0 }] 4)).world.reads
      = 1 := by
  refine ⟨rfl, rfl, le_refl _, rfl, rfl, rfl⟩

/-! ## Awaiting a task twice -/

/-- C5 as stated fails: a task that has completed before it is first awaited
is awaited a second time without any failure; `main` running `await_twice`
ends normally with 7 + 7. -/
theorem second_await_of_completed_task_succeeds :
    main_ unit_clock 10 await_twice 0 = (status.ok, get_result.value 14) := by
  rfl

/-! ## How running coroutines changes the world -/

theorem frame_step_refl (fixed : Prop) (f : frame) : frame_step fixed f f :=
  ⟨fun _ h => h, fun h => h, fun _ _ => ⟨rfl, rfl⟩⟩

theorem frame_step_trans {a b : Prop} {f f' f'' : frame} (hab : b → a)
    (h1 : frame_step a f f') (h2 : frame_step a f' f'') : frame_step b f f'' := by
  refine ⟨fun c hc => h2.1 c (h1.1 c hc), fun hd => h2.2.1 (h1.2.1 hd), ?_⟩
  intro hb hp
  obtain ⟨e1, v1⟩ := h1.2.2 (hab hb) hp
  obtain ⟨e2, v2⟩ := h2.2.2 (hab hb) (by rw [e1]; exact hp)
  exact ⟨e2.trans e1, v2.trans v1⟩

theorem evolves_refl (h : Option Nat) (w : World) : evolves h w w :=
  ⟨⟨[], by simp⟩, rfl, fun _ f hf => ⟨f, hf, frame_step_refl _ f⟩⟩

theorem evolves_trans {h : Option Nat} {w w' w'' : World}
    (h1 : evolves h w w') (h2 : evolves h w' w'') : evolves h w w'' := by
  obtain ⟨⟨l1, t1⟩, r1, f1⟩ := h1
  obtain ⟨⟨l2, t2⟩, r2, f2⟩ := h2
  refine ⟨⟨l1 ++ l2, by rw [t2, t1, List.append_assoc]⟩, r2.trans r1, ?_⟩
  intro i f hf
  obtain ⟨f', hf', s1⟩ := f1 i f hf
  obtain ⟨f'', hf'', s2⟩ := f2 i f' hf'
  exact ⟨f'', hf'', frame_step_trans (fun x => x) s1 s2⟩

theorem evolves_weaken {w w' : World} (h : Option Nat) (h1 : evolves none w w') :
    evolves h w w' := by
  obtain ⟨t1, r1, f1⟩ := h1
  refine ⟨t1, r1, ?_⟩
  intro i f hf
  obtain ⟨f', hf', s1⟩ := f1 i f hf
  exact ⟨f', hf', frame_step_trans (fun _ => by simp) s1 (frame_step_refl _ f')⟩

theorem evolves_modify_frame (h : Option Nat) (w : World) (x : Nat) (g : frame → frame)
    (hg : ∀ f, w.frames[x]? = some f → frame_step (h ≠ some x) f (g f)) :
    evolves h w (w.modify_frame x g) := by
  refine ⟨⟨[], by simp [World.modify_frame]⟩, rfl, ?_⟩
  intro i f hf
  rw [frames_modify_frame]
  by_cases hi : x = i
  · subst hi
    exact ⟨g f, by simp [hf], hg f hf⟩
  · exact ⟨f, by simp [hi, hf], frame_step_refl _ f⟩

theorem evolves_same_frames (h : Option Nat) (w w' : World) (hf : w'.frames = w.frames)
    (ht : ∃ l, w'.timers = w.timers ++ l) (hr : w'.resumed = w.resumed) : evolves h w w' :=
  ⟨ht, hr, fun i f hi => ⟨f, by rw [hf]; exact hi, frame_step_refl _ f⟩⟩

theorem evolves_set_point (w : World) (h : Nat) (pt : suspend_point) :
    evolves (some h) w (w.set_point h pt) :=
  evolves_modify_frame _ _ _ _ fun _ _ => ⟨fun _ hc => hc, fun hd => hd, fun hne => absurd rfl hne⟩

theorem evolves_return_value (w : World) (h : Nat) (v : Int) :
    evolves (some h) w (w.return_value h v) :=
  evolves_modify_frame _ _ _ _ fun _ _ => ⟨fun _ hc => hc, fun hd => hd, fun hne => absurd rfl hne⟩

theorem evolves_submit_timer_task (el : Nat → Nat) (h : Option Nat) (w : World)
    (handle : coroutine_handle) (timeout : Int) :
    evolves h w (submit_timer_task el w handle timeout) :=
  evolves_same_frames _ _ _ rfl ⟨_, rfl⟩ rfl

theorem evolves_destroy (w w' : World) (x : Nat) (hd : coroutine_handle_destroy w x = some w') :
    evolves none w w' := by
  unfold coroutine_handle_destroy at hd
  cases hx : w.frames[x]? with
  | none => simp [hx] at hd
  | some f =>
    rw [hx] at hd
    simp only at hd
    by_cases hdes : f.destroyed = true
    · simp [hdes] at hd
    · simp only [hdes, Bool.false_eq_true, if_false] at hd
      have : w' = w.modify_frame x (fun f => { f with destroyed := true }) := by
        cases hpt : f.point <;> simp_all
      subst this
      exact evolves_modify_frame _ _ _ _ fun _ _ =>
        ⟨fun _ hc => hc, fun _ => rfl, fun _ _ => ⟨rfl, rfl⟩⟩

theorem evolves_destroy_locals :
    ∀ (locals : List task) (w w' : World), destroy_locals w locals = some w' → evolves none w w'
  | [], w, w', h => by
    simp only [destroy_locals, Option.some.injEq] at h
    subst h
    exact evolves_refl _ _
  | t :: ts, w, w', h => by
    unfold destroy_locals at h
    cases hd : t.dtor w with
    | none => simp [hd] at h
    | some w1 =>
      rw [hd] at h
      simp only at h
      have e1 : evolves none w w1 := by
        unfold task.dtor at hd
        cases hh : t.handle with
        | none =>
          rw [hh] at hd
          simp only [Option.some.injEq] at hd
          subst hd
          exact evolves_refl _ _
        | some x =>
          rw [hh] at hd
          exact evolves_destroy _ _ _ hd
      exact evolves_trans e1 (evolves_destroy_locals ts w1 w' h)

theorem evolves_await_suspend (w w' : World) (a : task_awaitable) (c : coroutine_handle)
    (x : Nat) (p : task_promise_type) (ha : a.handle = some x) (hp : w.promise x = some p)
    (hw : p.awaiting_coroutine = none) (hs : a.await_suspend w c = some w') :
    evolves none w w' := by
  unfold task_awaitable.await_suspend at hs
  rw [ha] at hs
  simp only [hp, Option.some.injEq] at hs
  subst hs
  apply evolves_modify_frame
  intro f hf
  have hfp : f.promise = p := by
    unfold World.promise at hp
    rw [hf] at hp
    by_cases hd : f.destroyed = true
    · simp [hd] at hp
    · simpa [hd] using hp
  refine ⟨fun c hc => ?_, fun hd => hd, fun _ _ => ⟨rfl, rfl⟩⟩
  rw [hfp, hw] at hc
  cases hc

theorem evolves_call (w w1 w2 : World) (f : frame)
    (h1 : w1 = { w with frames := w.frames ++ [f] })
    (h2 : evolves (some w.frames.length) w1 w2) : evolves none w w2 := by
  subst h1
  obtain ⟨t, r, fr⟩ := h2
  refine ⟨t, r, ?_⟩
  intro i fi hi
  have hlt : i < w.frames.length := by
    by_contra hge
    rw [List.getElem?_eq_none (by omega)] at hi
    cases hi
  obtain ⟨f', hf', s⟩ := fr i fi (by simp [List.getElem?_append_left hlt, hi])
  refine ⟨f', hf', frame_step_trans (fun _ => ?_) s (frame_step_refl _ f')⟩
  intro hEq
  simp only [Option.some.injEq] at hEq
  omega

theorem resume_with_evolves (run : Nat → Coro → World → Res)
    (hrun : ∀ h c w, evolves (some h) w (run h c w).world)
    (handle : coroutine_handle) (w : World) :
    evolves none w (resume_with run handle w).world := by
  unfold resume_with
  cases handle with
  | none => exact evolves_refl _ _
  | some h =>
    simp only
    cases hf : w.frames[h]? with
    | none => exact evolves_refl _ _
    | some f =>
      simp only
      by_cases hd : f.destroyed = true
      · simp only [hd, if_true]; exact evolves_refl _ _
      · simp only [hd, Bool.false_eq_true, if_false]
        have key : ∀ c, f.point ≠ suspend_point.running → f.point ≠ suspend_point.at_final →
            evolves none w (run h c (w.set_point h suspend_point.running)).world := by
          intro c hn1 hn2
          obtain ⟨t1, r1, f1⟩ := evolves_trans (evolves_set_point w h suspend_point.running)
            (hrun h c _)
          refine ⟨t1, r1, ?_⟩
          intro i fi hi
          obtain ⟨f', hf', s⟩ := f1 i fi hi
          refine ⟨f', hf', s.1, s.2.1, ?_⟩
          intro _ hp
          apply s.2.2 _ hp
          intro hEq
          simp only [Option.some.injEq] at hEq
          subst hEq
          rw [hf] at hi
          simp only [Option.some.injEq] at hi
          subst hi
          rcases hp with hp | hp
          · exact hn1 hp
          · exact hn2 hp
        cases hpt : f.point with
        | running => exact evolves_refl _ _
        | at_final => exact evolves_refl _ _
        | at_timer k => exact key k (by simp [hpt]) (by simp [hpt])
        | at_task a k =>
          simp only
          cases hv : a.await_resume w with
          | none => exact evolves_refl _ _
          | some v => exact key (k v) (by simp [hpt]) (by simp [hpt])

theorem exec_evolves (el : Nat → Nat) :
    ∀ (n h : Nat) (c : Coro) (w : World), evolves (some h) w (exec el n h c w).world := by
  intro n
  induction n with
  | zero => intro h c w; exact evolves_refl _ _
  | succ n ih =>
    intro h c w
    cases c with
    | cout items k =>
      simp only [exec_cout, exec_seconds, exec_task, exec_call, exec_return]
      exact evolves_trans (evolves_same_frames _ w _ rfl ⟨[], by simp⟩ rfl) (ih h k _)
    | co_await_seconds d k =>
      simp only [exec_cout, exec_seconds, exec_task, exec_call, exec_return]
      exact evolves_trans (evolves_set_point w h _) (evolves_submit_timer_task el _ _ _ _)
    | co_await_task t k =>
      simp only [exec_cout, exec_seconds, exec_task, exec_call, exec_return]
      cases ht : await_transform_task w t with
      | throws e => exact evolves_refl _ _
      | undefined => exact evolves_refl _ _
      | awaitable a =>
        simp only
        cases hr : a.await_ready w with
        | none => exact evolves_refl _ _
        | some b =>
          cases b with
          | true =>
            simp only
            cases hv : a.await_resume w with
            | none => exact evolves_refl _ _
            | some v => exact ih h (k v) w
          | false =>
            simp only
            cases hs : a.await_suspend (w.set_point h (suspend_point.at_task a k)) (some h) with
            | none => exact evolves_refl _ _
            | some w1 =>
              simp only
              -- the awaited promise is live and has no waiter
              unfold await_transform_task at ht
              cases hh : t.handle with
              | none => simp [hh] at ht
              | some x =>
                rw [hh] at ht
                simp only at ht
                cases hp : w.promise x with
                | none => simp [hp] at ht
                | some p =>
                  rw [hp] at ht
                  simp only at ht
                  cases hc : p.awaiting_coroutine with
                  | some c => simp [hc] at ht
                  | none =>
                    simp only [hc, Option.isSome_none, Bool.false_eq_true, if_false,
                      transform_result.awaitable.injEq] at ht
                    subst ht
                    exact evolves_trans (evolves_set_point w h _)
                      (evolves_weaken _ (evolves_await_suspend _ _ _ _ x p rfl
                        (by rw [promise_set_point]; exact hp) hc hs))
    | call body k =>
      simp only [exec_cout, exec_seconds, exec_task, exec_call, exec_return]
      have e1 := evolves_weaken (some h) (evolves_call w _ _ _ rfl (ih w.frames.length body
        { w with frames := w.frames ++
            [{ promise := { value := none, awaiting_coroutine := none },
               point := suspend_point.running, destroyed := false }] }))
      generalize hr : exec el n w.frames.length body
        { w with frames := w.frames ++
            [{ promise := { value := none, awaiting_coroutine := none },
               point := suspend_point.running, destroyed := false }] } = r at e1
      obtain ⟨st, w2⟩ := r
      cases st with
      | ok => exact evolves_trans e1 (ih h _ w2)
      | terminated e => exact e1
      | undefined => exact e1
      | out_of_fuel => exact e1
    | co_return v locals =>
      simp only [exec_cout, exec_seconds, exec_task, exec_call, exec_return]
      have e1 := evolves_return_value w h v
      cases hd : destroy_locals (w.return_value h v) locals with
      | none => exact e1
      | some w2 =>
        simp only
        have e2 := evolves_trans e1 (evolves_weaken (some h) (evolves_destroy_locals _ _ _ hd))
        cases hp : w2.promise h with
        | none => exact e2
        | some p =>
          simp only
          have e3 := evolves_trans e2 (evolves_set_point w2 h suspend_point.at_final)
          cases hc : p.awaiting_coroutine with
          | none => exact e3
          | some c =>
            exact evolves_trans e3 (evolves_weaken (some h) (resume_with_evolves _ (ih) _ _))

theorem coroutine_handle_resume_evolves (el : Nat → Nat) (n : Nat) (handle : coroutine_handle)
    (w : World) : evolves none w (coroutine_handle_resume el n handle w).world :=
  resume_with_evolves _ (exec_evolves el n) _ _

/-! ## The driver loop -/

theorem loop_resumed_append (el : Nat → Nat) :
    ∀ (n : Nat) (w : World), ∃ l, (loop el n w).world.resumed = w.resumed ++ l := by
  intro n
  induction n with
  | zero => intro w; exact ⟨[], by simp [loop]⟩
  | succ n ih =>
    intro w
    unfold loop
    cases htop : priority_queue_top w.timers with
    | none => exact ⟨[], by simp⟩
    | some e =>
      simp only [steady_clock_now]
      by_cases hlt : e.target_time < w.clock + (el w.reads : Int)
      · simp only [hlt, if_true]
        have ev := coroutine_handle_resume_evolves el n e.handle
          { w with clock := w.clock + (el w.reads : Int), reads := w.reads + 1,
                   timers := priority_queue_pop w.timers,
                   resumed := w.resumed ++ [(e, w.clock + (el w.reads : Int))] }
        generalize coroutine_handle_resume el n e.handle _ = r at ev
        obtain ⟨st, w3⟩ := r
        have hr : w3.resumed = w.resumed ++ [(e, w.clock + (el w.reads : Int))] := ev.2.1
        cases st with
        | ok =>
          obtain ⟨l, hl⟩ := ih w3
          exact ⟨(e, w.clock + (el w.reads : Int)) :: l, by simp [hl, hr]⟩
        | terminated x => exact ⟨[(e, w.clock + (el w.reads : Int))], hr⟩
        | undefined => exact ⟨[(e, w.clock + (el w.reads : Int))], hr⟩
        | out_of_fuel => exact ⟨[(e, w.clock + (el w.reads : Int))], hr⟩
      · simp only [hlt, if_false]
        exact ih _

theorem loop_resumed_eq (el : Nat → Nat) (n : Nat) (w : World) :
    (loop el n w).world.resumed = w.resumed ++ new_resumed w (loop el n w).world := by
  obtain ⟨l, hl⟩ := loop_resumed_append el n w
  simp [new_resumed, hl]

theorem new_resumed_step (el : Nat → Nat) (n : Nat) (w w3 : World)
    (a : List (timer_task × Int)) (h1 : w3.resumed = w.resumed ++ a) :
    new_resumed w (loop el n w3).world = a ++ new_resumed w3 (loop el n w3).world := by
  obtain ⟨l, hl⟩ := loop_resumed_append el n w3
  simp [new_resumed, hl, h1]

theorem loop_resumed_due (el : Nat → Nat) :
    ∀ (n : Nat) (w : World), ∀ p ∈ new_resumed w (loop el n w).world, p.1.target_time < p.2 := by
  intro n
  induction n with
  | zero => intro w p hp; simp [loop, new_resumed] at hp
  | succ n ih =>
    intro w p hp
    unfold loop at hp
    cases htop : priority_queue_top w.timers with
    | none => simp [htop, new_resumed] at hp
    | some e =>
      simp only [htop, steady_clock_now] at hp
      by_cases hlt : e.target_time < w.clock + (el w.reads : Int)
      · simp only [hlt, if_true] at hp
        have ev := coroutine_handle_resume_evolves el n e.handle
          { w with clock := w.clock + (el w.reads : Int), reads := w.reads + 1,
                   timers := priority_queue_pop w.timers,
                   resumed := w.resumed ++ [(e, w.clock + (el w.reads : Int))] }
        generalize coroutine_handle_resume el n e.handle _ = r at ev hp
        obtain ⟨st, w3⟩ := r
        have hr : w3.resumed = w.resumed ++ [(e, w.clock + (el w.reads : Int))] := ev.2.1
        have hone : ∀ q ∈ new_resumed w w3, q.1.target_time < q.2 := by
          intro q hq
          simp only [new_resumed, hr, List.drop_left, List.mem_singleton] at hq
          subst hq
          exact hlt
        cases st with
        | ok =>
          simp only at hp
          rw [new_resumed_step el n w w3 _ hr] at hp
          simp only [List.singleton_append, List.mem_cons] at hp
          rcases hp with hp | hp
          · subst hp; exact hlt
          · exact ih w3 p hp
        | terminated x => exact hone p hp
        | undefined => exact hone p hp
        | out_of_fuel => exact hone p hp
      · simp only [hlt, if_false] at hp
        exact ih (sleep_until { w with clock := w.clock + (el w.reads : Int),
                                       reads := w.reads + 1 } e.target_time) p hp

theorem loop_order (el : Nat → Nat) (e1 e2 : timer_task)
    (hlt : e1.target_time < e2.target_time) :
    ∀ (n : Nat) (w : World), e1 ∈ w.timers →
      ∀ pre post t2, new_resumed w (loop el n w).world = pre ++ (e2, t2) :: post →
        ∃ t1, (e1, t1) ∈ pre := by
  intro n
  induction n with
  | zero =>
    intro w _ pre post t2 hp
    simp [loop, new_resumed] at hp
  | succ n ih =>
    intro w h1 pre post t2 hp
    unfold loop at hp
    cases htop : priority_queue_top w.timers with
    | none => simp [htop, new_resumed] at hp
    | some e =>
      simp only [htop, steady_clock_now] at hp
      by_cases hdue : e.target_time < w.clock + (el w.reads : Int)
      · simp only [hdue, if_true] at hp
        have hle := priority_queue_top_le _ _ htop e1 h1
        have hne2 : e ≠ e2 := by
          intro hEq; subst hEq; omega
        have ev := coroutine_handle_resume_evolves el n e.handle
          { w with clock := w.clock + (el w.reads : Int), reads := w.reads + 1,
                   timers := priority_queue_pop w.timers,
                   resumed := w.resumed ++ [(e, w.clock + (el w.reads : Int))] }
        generalize coroutine_handle_resume el n e.handle _ = r at ev hp
        obtain ⟨st, w3⟩ := r
        have hr : w3.resumed = w.resumed ++ [(e, w.clock + (el w.reads : Int))] := ev.2.1
        have hone : new_resumed w w3 = pre ++ (e2, t2) :: post → ∃ t1, (e1, t1) ∈ pre := by
          intro hq
          simp only [new_resumed, hr, List.drop_left] at hq
          cases pre with
          | nil =>
            simp only [List.nil_append, List.cons.injEq, Prod.mk.injEq] at hq
            exact absurd hq.1.1 hne2
          | cons x pre' =>
            simp only [List.cons_append, List.cons.injEq] at hq
            have := hq.2
            cases pre' <;> simp at this
        cases st with
        | ok =>
          simp only at hp
          rw [new_resumed_step el n w w3 _ hr] at hp
          simp only [List.singleton_append] at hp
          cases pre with
          | nil =>
            simp only [List.nil_append, List.cons.injEq, Prod.mk.injEq] at hp
            exact absurd hp.1.1 hne2
          | cons x pre' =>
            simp only [List.cons_append, List.cons.injEq] at hp
            obtain ⟨hx, hrest⟩ := hp
            by_cases he1 : e = e1
            · exact ⟨w.clock + (el w.reads : Int), by simp [← hx, he1]⟩
            · have hmem : e1 ∈ w3.timers := by
                obtain ⟨l, hl⟩ := ev.1
                rw [hl]
                apply List.mem_append_left
                simp only [priority_queue_pop, htop]
                exact (List.mem_erase_of_ne (Ne.symm he1)).mpr h1
              obtain ⟨t1, ht1⟩ := ih w3 hmem pre' post t2 hrest
              exact ⟨t1, List.mem_cons_of_mem _ ht1⟩
        | terminated x => exact hone hp
        | undefined => exact hone hp
        | out_of_fuel => exact hone hp
      · simp only [hdue, if_false] at hp
        exact ih (sleep_until { w with clock := w.clock + (el w.reads : Int),
                                       reads := w.reads + 1 } e.target_time) h1 pre post t2 hp

theorem loop_ok_resumes_all (el : Nat → Nat) :
    ∀ (n : Nat) (w : World), (loop el n w).st = status.ok →
      ∀ e ∈ w.timers, ∃ t, (e, t) ∈ new_resumed w (loop el n w).world := by
  intro n
  induction n with
  | zero => intro w hok; simp [loop] at hok
  | succ n ih =>
    intro w hok e0 he0
    unfold loop at hok ⊢
    cases htop : priority_queue_top w.timers with
    | none =>
      rw [priority_queue_top_none _ htop] at he0
      cases he0
    | some e =>
      simp only [htop, steady_clock_now] at hok ⊢
      by_cases hdue : e.target_time < w.clock + (el w.reads : Int)
      · simp only [hdue, if_true] at hok ⊢
        have ev := coroutine_handle_resume_evolves el n e.handle
          { w with clock := w.clock + (el w.reads : Int), reads := w.reads + 1,
                   timers := priority_queue_pop w.timers,
                   resumed := w.resumed ++ [(e, w.clock + (el w.reads : Int))] }
        generalize coroutine_handle_resume el n e.handle _ = r at ev hok ⊢
        obtain ⟨st, w3⟩ := r
        have hr : w3.resumed = w.resumed ++ [(e, w.clock + (el w.reads : Int))] := ev.2.1
        cases st with
        | ok =>
          simp only at hok ⊢
          rw [new_resumed_step el n w w3 _ hr]
          simp only [List.singleton_append, List.mem_cons, Prod.mk.injEq]
          by_cases he : e = e0
          · exact ⟨w.clock + (el w.reads : Int), Or.inl ⟨he.symm, rfl⟩⟩
          · have hmem : e0 ∈ w3.timers := by
              obtain ⟨l, hl⟩ := ev.1
              rw [hl]
              apply List.mem_append_left
              simp only [priority_queue_pop, htop]
              exact (List.mem_erase_of_ne (Ne.symm he)).mpr he0
            obtain ⟨t, ht⟩ := ih w3 hok e0 hmem
            exact ⟨t, Or.inr ht⟩
        | terminated x => simp at hok
        | undefined => simp at hok
        | out_of_fuel => simp at hok
      · simp only [hdue, if_false] at hok ⊢
        obtain ⟨t, ht⟩ := ih _ hok e0 he0
        exact ⟨t, by simpa [new_resumed] using ht⟩

/-- C2: if two entries `e1` and `e2` are pending in the timer queue and `e1`
wakes before `e2`, then, wherever a run of `loop` stops, `e2` is resumed only
after `e1` was resumed; and when `loop` returns both were resumed, `e1`
first.  The order in which the entries were pushed plays no part. -/
theorem loop_resumes_in_wake_time_order (el : Nat → Nat) (n : Nat) (w : World)
    (e1 e2 : timer_task) (h1 : e1 ∈ w.timers) (h2 : e2 ∈ w.timers)
    (hlt : e1.target_time < e2.target_time) :
    (∀ pre post t2, new_resumed w (loop el n w).world = pre ++ (e2, t2) :: post →
      ∃ t1, (e1, t1) ∈ pre) ∧
    ((loop el n w).st = status.ok →
      ∃ pre post t1 t2, new_resumed w (loop el n w).world = pre ++ (e2, t2) :: post ∧
        (e1, t1) ∈ pre) := by
  refine ⟨loop_order el e1 e2 hlt n w h1, ?_⟩
  intro hok
  obtain ⟨t2, ht2⟩ := loop_ok_resumes_all el n w hok e2 h2
  obtain ⟨pre, post, hpp⟩ := List.append_of_mem ht2
  obtain ⟨t1, ht1⟩ := loop_order el e1 e2 hlt n w h1 pre post t2 hpp
  exact ⟨pre, post, t1, t2, hpp, ht1⟩

/-- Instance of C2, scenario A: `wait_n(3)`, `wait_n(2)`, `wait_n(1)` are
started in that order (frames 0, 1, 2); `loop` resumes the frame of
`wait_n(1)` before that of `wait_n(2)`, and the whole order of resumption is
frame 2, frame 1, frame 0. -/
theorem loop_resumes_in_wake_time_order_witness :
    (∃ pre post t1 t2,
      new_resumed (scenario_a unit_clock) (loop unit_clock 20 (scenario_a unit_clock)).world
        = pre ++ (({ target_time := 2000000002, handle := some 1 } : timer_task), t2) :: post ∧
      (({ target_time := 1000000003, handle := some 2 } : timer_task), t1) ∈ pre) ∧
    (loop unit_clock 20 (scenario_a unit_clock)).world.resumed.map (fun p => p.1.handle)
      = [some 2, some 1, some 0] :=
  ⟨(loop_resumes_in_wake_time_order unit_clock 20 (scenario_a unit_clock)
      { target_time := 1000000003, handle := some 2 }
      { target_time := 2000000002, handle := some 1 }
      (by decide) (by decide) (by decide)).2 (by rfl), by rfl⟩

theorem int64_wrap_of_range (x : Int) (hlo : -9223372036854775808 ≤ x)
    (hhi : x < 9223372036854775808) : int64_wrap x = x := by
  unfold int64_wrap
  rw [Int.emod_eq_of_lt (by omega) (by omega)]
  omega

/-- C7, as the code has it: when the sum of the clock reading `t0` taken by
`submit_timer_task` and the duration `d`, in ticks, fits a signed 64-bit
count, a coroutine `h` that executes `co_await std::chrono::seconds(d)` is
suspended, the timer entry pushed for it has wake time `t0 + d` seconds, and
whenever any run of `loop` resumes that entry, the clock reading `t` that
`loop` compared it with is later than the wake time, so it is never
earlier. -/
theorem no_early_resumption (el : Nat → Nat) (n h : Nat) (d : Int) (k : Coro) (w : World)
    (hlo : -9223372036854775808 ≤ (steady_clock_now el w).1 + d * ticks_per_second)
    (hhi : (steady_clock_now el w).1 + d * ticks_per_second < 9223372036854775808) :
    (exec el (n + 1) h (Coro.co_await_seconds d k) w).st = status.ok ∧
    (exec el (n + 1) h (Coro.co_await_seconds d k) w).world.timers
      = w.timers ++ [{ target_time := (steady_clock_now el w).1 + d * ticks_per_second,
                       handle := some h }] ∧
    (exec el (n + 1) h (Coro.co_await_seconds d k) w).world.frames
      = (w.set_point h (suspend_point.at_timer k)).frames ∧
    ∀ (m : Nat) (w0 : World) (t : Int),
      (({ target_time := (steady_clock_now el w).1 + d * ticks_per_second,
          handle := some h } : timer_task), t) ∈ new_resumed w0 (loop el m w0).world →
      (steady_clock_now el w).1 + d * ticks_per_second < t ∧
      ¬ t < (steady_clock_now el w).1 + d * ticks_per_second := by
  have hw := int64_wrap_of_range _ hlo hhi
  simp only [steady_clock_now] at hw
  refine ⟨by simp [exec_seconds], ?_, ?_, ?_⟩
  · simp [exec_seconds, submit_timer_task, steady_clock_now, priority_queue_push,
      World.set_point, World.modify_frame, hw]
  · simp [exec_seconds, submit_timer_task, steady_clock_now]
  · intro m w0 t ht
    have := loop_resumed_due el m w0 _ ht
    simp only at this
    exact ⟨this, by omega⟩

/-- Instance of C7 in scenario A: the entry of `wait_n(1)`, pushed at clock
reading 3 with wake time 3 + 10^9, is resumed by `loop` at reading
10^9 + 4. -/
theorem no_early_resumption_witness :
    ((3 : Int) + 1 * ticks_per_second < 1000000004) ∧
    ¬ ((1000000004 : Int) < 3 + 1 * ticks_per_second) :=
  (no_early_resumption unit_clock 0 2 1 (Coro.co_return 1 []) (world_of [] [] 2)
      (by decide) (by decide)).2.2.2
    20 (scenario_a unit_clock) 1000000004 (by decide)

/-- C7 as stated fails: `main` starts `long_wait`, which waits 9223372037
seconds at clock reading 1.  The wake time `t0 + d` would be
9223372037000000001 ticks, which no signed 64-bit count holds; the entry that
is registered has wake time -9223372036709551615, and `loop` resumes the
coroutine at clock reading 2, long before `t0 + d`. -/
theorem long_wait_is_resumed_early :
    (steady_clock_now unit_clock (World.init 0)).1 = 1 ∧
    (start unit_clock 5 long_wait (World.init 0)).1.world.timers
      = [{ target_time := -9223372036709551615, handle := some 0 }] ∧
    (-9223372036709551615 : Int) ≠ 1 + 9223372037 * ticks_per_second ∧
    (loop unit_clock 5 (start unit_clock 5 long_wait (World.init 0)).1.world).world.resumed
      = [({ target_time := -9223372036709551615, handle := some 0 }, 2)] ∧
    (2 : Int) < 1 + 9223372037 * ticks_per_second ∧
    main_ unit_clock 5 long_wait 0 = (status.ok, get_result.value 1) := by
  refine ⟨by rfl, by rfl, by decide, by rfl, by decide, by rfl⟩

/-! ## More fuel changes nothing -/

theorem resume_with_mono (run run' : Nat → Coro → World → Res)
    (hrun : ∀ h c w, (run h c w).st ≠ status.out_of_fuel → run' h c w = run h c w)
    (handle : coroutine_handle) (w : World)
    (hne : (resume_with run handle w).st ≠ status.out_of_fuel) :
    resume_with run' handle w = resume_with run handle w := by
  unfold resume_with at hne ⊢
  cases handle with
  | none => rfl
  | some h =>
    simp only at hne ⊢
    cases hf : w.frames[h]? with
    | none => rfl
    | some f =>
      simp only [hf] at hne ⊢
      by_cases hd : f.destroyed = true
      · simp only [hd, if_true]
      · simp only [hd, Bool.false_eq_true, if_false] at hne ⊢
        cases hpt : f.point with
        | running => rfl
        | at_final => rfl
        | at_timer k =>
          simp only [hpt] at hne ⊢
          exact hrun _ _ _ hne
        | at_task a k =>
          simp only [hpt] at hne ⊢
          cases hv : a.await_resume w with
          | none => rfl
          | some v =>
            simp only [hv] at hne ⊢
            exact hrun _ _ _ hne

theorem exec_mono_succ (el : Nat → Nat) :
    ∀ (n h : Nat) (c : Coro) (w : World), (exec el n h c w).st ≠ status.out_of_fuel →
      exec el (n + 1) h c w = exec el n h c w := by
  intro n
  induction n with
  | zero => intro h c w hne; simp [exec] at hne
  | succ n ih =>
    intro h c w hne
    cases c with
    | cout items k =>
      simp only [exec_cout] at hne ⊢
      exact ih _ _ _ hne
    | co_await_seconds d k => simp only [exec_seconds]
    | co_await_task t k =>
      rw [exec_task, exec_task]
      rw [exec_task] at hne
      cases ht : await_transform_task w t with
      | throws e => rfl
      | undefined => rfl
      | awaitable a =>
        simp only [ht] at hne ⊢
        cases hr : a.await_ready w with
        | none => rfl
        | some b =>
          cases b with
          | false => rfl
          | true =>
            simp only [hr] at hne ⊢
            cases hv : a.await_resume w with
            | none => rfl
            | some v =>
              simp only [hv] at hne ⊢
              exact ih _ _ _ hne
    | call body k =>
      rw [exec_call, exec_call]
      rw [exec_call] at hne
      generalize hr : exec el n w.frames.length body
        { w with frames := w.frames ++
            [{ promise := { value := none, awaiting_coroutine := none },
               point := suspend_point.running, destroyed := false }] } = r at hne
      have h1 : exec el (n + 1) w.frames.length body
        { w with frames := w.frames ++
            [{ promise := { value := none, awaiting_coroutine := none },
               point := suspend_point.running, destroyed := false }] } = r := by
        rw [← hr]
        apply ih
        rw [hr]
        obtain ⟨st, w2⟩ := r
        cases st <;> simp_all
      rw [h1]
      obtain ⟨st, w2⟩ := r
      cases st with
      | ok => exact ih _ _ _ hne
      | terminated e => rfl
      | undefined => rfl
      | out_of_fuel => rfl
    | co_return v locals =>
      rw [exec_return, exec_return]
      rw [exec_return] at hne
      cases hd : destroy_locals (w.return_value h v) locals with
      | none => rfl
      | some w2 =>
        simp only [hd] at hne ⊢
        cases hp : w2.promise h with
        | none => rfl
        | some p =>
          simp only [hp] at hne ⊢
          cases hc : p.awaiting_coroutine with
          | none => rfl
          | some c =>
            simp only [hc] at hne ⊢
            exact resume_with_mono _ _ ih _ _ hne

theorem exec_mono (el : Nat → Nat) (n m h : Nat) (c : Coro) (w : World) (hnm : n ≤ m)
    (hne : (exec el n h c w).st ≠ status.out_of_fuel) : exec el m h c w = exec el n h c w := by
  induction m with
  | zero =>
    have : n = 0 := by omega
    subst this; rfl
  | succ m ih =>
    by_cases hEq : n = m + 1
    · subst hEq; rfl
    · have hle : n ≤ m := by omega
      have := ih hle
      rw [← this]
      apply exec_mono_succ
      rw [this]
      exact hne

theorem resume_mono (el : Nat → Nat) (n m : Nat) (handle : coroutine_handle) (w : World)
    (hnm : n ≤ m) (hne : (coroutine_handle_resume el n handle w).st ≠ status.out_of_fuel) :
    coroutine_handle_resume el m handle w = coroutine_handle_resume el n handle w :=
  resume_with_mono _ _ (fun h c w h1 => exec_mono el n m h c w hnm h1) _ _ hne

theorem loop_mono_succ (el : Nat → Nat) :
    ∀ (n : Nat) (w : World), (loop el n w).st ≠ status.out_of_fuel →
      loop el (n + 1) w = loop el n w := by
  intro n
  induction n with
  | zero => intro w hne; simp [loop] at hne
  | succ n ih =>
    intro w hne
    rw [loop, loop]
    rw [loop] at hne
    cases htop : priority_queue_top w.timers with
    | none => rfl
    | some e =>
      simp only [htop, steady_clock_now] at hne ⊢
      by_cases hdue : e.target_time < w.clock + (el w.reads : Int)
      · simp only [hdue, if_true] at hne ⊢
        generalize hr : coroutine_handle_resume el n e.handle
          { w with clock := w.clock + (el w.reads : Int), reads := w.reads + 1,
                   timers := priority_queue_pop w.timers,
                   resumed := w.resumed ++ [(e, w.clock + (el w.reads : Int))] } = r at hne
        have h1 : coroutine_handle_resume el (n + 1) e.handle
          { w with clock := w.clock + (el w.reads : Int), reads := w.reads + 1,
                   timers := priority_queue_pop w.timers,
                   resumed := w.resumed ++ [(e, w.clock + (el w.reads : Int))] } = r := by
          rw [← hr]
          apply resume_mono el n (n + 1) _ _ (by omega)
          rw [hr]
          obtain ⟨st, w2⟩ := r
          cases st <;> simp_all
        rw [h1]
        obtain ⟨st, w2⟩ := r
        cases st with
        | ok => exact ih _ hne
        | terminated e => rfl
        | undefined => rfl
        | out_of_fuel => rfl
      · simp only [hdue, if_false] at hne ⊢
        exact ih _ hne

theorem loop_mono (el : Nat → Nat) (n m : Nat) (w : World) (hnm : n ≤ m)
    (hne : (loop el n w).st ≠ status.out_of_fuel) : loop el m w = loop el n w := by
  induction m with
  | zero =>
    have : n = 0 := by omega
    subst this; rfl
  | succ m ih =>
    by_cases hEq : n = m + 1
    · subst hEq; rfl
    · have hle : n ≤ m := by omega
      have := ih hle
      rw [← this]
      apply loop_mono_succ
      rw [this]
      exact hne

/-! ## Progress of the driver loop on a clock that advances -/

theorem loop_returns_due (el : Nat → Nat) (w : World) (e : timer_task) (Q : World → Prop)
    (htop : priority_queue_top w.timers = some e)
    (hdue : e.target_time < w.clock + (el w.reads : Int))
    (hstep : ∃ m w3, coroutine_handle_resume el m e.handle
        { w with clock := w.clock + (el w.reads : Int), reads := w.reads + 1,
                 timers := w.timers.erase e,
                 resumed := w.resumed ++ [(e, w.clock + (el w.reads : Int))] }
          = { st := status.ok, world := w3 } ∧ loop_returns el w3 Q) :
    loop_returns el w Q := by
  obtain ⟨m, w3, hres, n, w', hloop, hQ⟩ := hstep
  refine ⟨max m n + 1, w', ?_, hQ⟩
  rw [(loop_step el (max m n) w e htop).1 hdue]
  rw [resume_mono el m (max m n) _ _ (le_max_left _ _) (by rw [hres]; simp), hres]
  simp only
  rw [loop_mono el n (max m n) _ (le_max_right _ _) (by rw [hloop]; simp), hloop]

theorem loop_returns_pop (el : Nat → Nat) (hpos : ∀ i, 0 < el i) (w : World) (e : timer_task)
    (Q : World → Prop) (htop : priority_queue_top w.timers = some e)
    (hstep : ∀ (now : Int) (rd : Nat), e.target_time < now →
      ∃ m w3, coroutine_handle_resume el m e.handle
        { w with clock := now, reads := rd, timers := w.timers.erase e,
                 resumed := w.resumed ++ [(e, now)] }
          = { st := status.ok, world := w3 } ∧ loop_returns el w3 Q) :
    loop_returns el w Q := by
  by_cases hdue : e.target_time < w.clock + (el w.reads : Int)
  · exact loop_returns_due el w e Q htop hdue (hstep _ _ hdue)
  · have hdue2 : e.target_time <
        max (w.clock + (el w.reads : Int)) e.target_time + (el (w.reads + 1) : Int) := by
      have := hpos (w.reads + 1)
      have h2 := le_max_right (w.clock + (el w.reads : Int)) e.target_time
      omega
    obtain ⟨n, w', hloop, hQ⟩ := loop_returns_due el
      { w with clock := max (w.clock + (el w.reads : Int)) e.target_time, reads := w.reads + 1 }
      e Q htop hdue2 (hstep _ _ hdue2)
    refine ⟨n + 1, w', ?_, hQ⟩
    rw [(loop_step el n w e htop).2 hdue]
    exact hloop

theorem loop_returns_empty (el : Nat → Nat) (w : World) (Q : World → Prop)
    (ht : w.timers = []) (hQ : Q w) : loop_returns el w Q :=
  ⟨1, w, by simp [loop, ht, priority_queue_top], hQ⟩

theorem main_of_loop_returns (el : Nat → Nat) (body : Coro) (clock : Int) (m : Nat)
    (w1 : World) (g : get_result)
    (hstart : exec el m 0 body
        { World.init clock with frames :=
            [{ promise := { value := none, awaiting_coroutine := none },
               point := suspend_point.running, destroyed := false }] }
      = { st := status.ok, world := w1 })
    (hloop : loop_returns el w1 (fun w' => ((task.ctor (some 0)).get w').1 = g)) :
    ∃ fuel w0 w2, start el fuel body (World.init clock)
        = ({ st := status.ok, world := w0 }, task.ctor (some 0)) ∧
      loop el fuel w0 = { st := status.ok, world := w2 } ∧
      ((task.ctor (some 0)).get w2).1 = g ∧
      main_ el fuel body clock = (status.ok, g) := by
  obtain ⟨n, w', hl, hg⟩ := hloop
  refine ⟨max m n, w1, w', ?_⟩
  have h1 : exec el (max m n) 0 body
        { World.init clock with frames :=
            [{ promise := { value := none, awaiting_coroutine := none },
               point := suspend_point.running, destroyed := false }] }
      = { st := status.ok, world := w1 } := by
    rw [exec_mono el m (max m n) _ _ _ (le_max_left _ _) (by rw [hstart]; simp), hstart]
  have h2 : loop el (max m n) w1 = { st := status.ok, world := w' } := by
    rw [loop_mono el n (max m n) _ (le_max_right _ _) (by rw [hl]; simp), hl]
  have h3 : start el (max m n) body (World.init clock)
      = ({ st := status.ok, world := w1 }, task.ctor (some 0)) := by
    unfold start
    simp only [World.init, List.length_nil, List.nil_append] at h1 ⊢
    rw [h1]
    rfl
  refine ⟨h3, h2, hg, ?_⟩
  unfold main_
  rw [h3]
  simp only
  rw [h2]
  simp only [hg]

theorem wait_n_yields (el : Nat → Nat) (hpos : ∀ i, 0 < el i) (k clock : Int) :
    ∃ fuel w1 w2, start el fuel (wait_n k) (World.init clock)
        = ({ st := status.ok, world := w1 }, task.ctor (some 0)) ∧
      loop el fuel w1 = { st := status.ok, world := w2 } ∧
      ((task.ctor (some 0)).get w2).1 = get_result.value k ∧
      main_ el fuel (wait_n k) clock = (status.ok, get_result.value k) := by
  refine main_of_loop_returns el (wait_n k) clock 3 _ _
    (by simp [exec_cout, exec_seconds, wait_n, World.init, World.set_point, World.modify_frame,
          submit_timer_task, steady_clock_now, priority_queue_push]; rfl) ?_
  refine loop_returns_pop el hpos _ _ _ (by simp [priority_queue_top]; rfl) ?_
  intro now rd _
  refine ⟨3, _, by simp [coroutine_handle_resume, resume_with, World.set_point,
    World.modify_frame, exec_cout, exec_return, World.return_value,
    task_promise_type.return_value, destroy_locals, World.promise]; rfl, ?_⟩
  refine loop_returns_empty el _ _ ?_ ?_
  · simp
  · simp [task.get, task.ctor, World.promise]

theorem loop_returns_pop_any (el : Nat → Nat) (hpos : ∀ i, 0 < el i) (w : World)
    (Q : World → Prop) (hne : w.timers ≠ [])
    (hstep : ∀ e ∈ w.timers, ∀ (now : Int) (rd : Nat), e.target_time < now →
      ∃ m w3, coroutine_handle_resume el m e.handle
        { w with clock := now, reads := rd, timers := w.timers.erase e,
                 resumed := w.resumed ++ [(e, now)] }
          = { st := status.ok, world := w3 } ∧ loop_returns el w3 Q) :
    loop_returns el w Q := by
  cases htop : priority_queue_top w.timers with
  | none => exact absurd (priority_queue_top_none _ htop) hne
  | some e =>
    exact loop_returns_pop el hpos w e Q htop (hstep e (priority_queue_top_mem _ _ htop))

theorem test_for_returns (el : Nat → Nat) (hpos : ∀ i, 0 < el i) (K : Coro)
    (Q : World → Prop)
    (hK : ∀ (clock : Int) (reads : Nat) (cout : List cout_item)
        (resumed : List (timer_task × Int)),
      ∃ m w3, exec el m 0 K
        { frames := [{ promise := { value := none, awaiting_coroutine := none },
                       point := suspend_point.running, destroyed := false }],
          timers := [], clock := clock, reads := reads, cout := cout, resumed := resumed }
          = { st := status.ok, world := w3 } ∧ loop_returns el w3 Q) :
    ∀ (cs : List Char) (t clock : Int) (reads : Nat) (cout : List cout_item)
      (resumed : List (timer_task × Int)),
      loop_returns el
        { frames := [{ promise := { value := none, awaiting_coroutine := none },
                       point := suspend_point.at_timer (test_for cs K), destroyed := false }],
          timers := [{ target_time := t, handle := some 0 }],
          clock := clock, reads := reads, cout := cout, resumed := resumed } Q := by
  intro cs
  induction cs with
  | nil =>
    intro t clock reads cout resumed
    refine loop_returns_pop el hpos _ _ _ (by simp [priority_queue_top]; rfl) ?_
    intro now rd _
    obtain ⟨m, w3, h1, h2⟩ := hK now rd cout (resumed ++ [({ target_time := t, handle := some 0 }, now)])
    refine ⟨m, w3, ?_, h2⟩
    simpa [coroutine_handle_resume, resume_with, World.set_point, World.modify_frame,
      test_for] using h1
  | cons c cs ih =>
    intro t clock reads cout resumed
    refine loop_returns_pop el hpos _ _ _ (by simp [priority_queue_top]; rfl) ?_
    intro now rd _
    refine ⟨2, _, by simp [coroutine_handle_resume, resume_with, World.set_point,
      World.modify_frame, test_for, exec_cout, exec_seconds, submit_timer_task, steady_clock_now,
      priority_queue_push]; rfl, ?_⟩
    exact ih _ _ _ _ _

theorem test_unfold (left_first : Bool) : test left_first = Coro.cout [cout_item.chr 'h']
    (Coro.co_await_seconds 1 (test_for hello_world.tail (test_rest left_first))) := rfl

theorem test_yields (el : Nat → Nat) (hpos : ∀ i, 0 < el i) (clock : Int)
    (left_first : Bool) :
    ∃ fuel w1 w2, start el fuel (test left_first) (World.init clock)
        = ({ st := status.ok, world := w1 }, task.ctor (some 0)) ∧
      loop el fuel w1 = { st := status.ok, world := w2 } ∧
      ((task.ctor (some 0)).get w2).1 = get_result.value 6 ∧
      main_ el fuel (test left_first) clock = (status.ok, get_result.value 6) := by
  refine main_of_loop_returns el (test left_first) clock 3 _ _
    (by rw [test_unfold]
        simp [exec_cout, exec_seconds, World.init, World.set_point, World.modify_frame,
          submit_timer_task, steady_clock_now, priority_queue_push]; rfl) ?_
  refine test_for_returns el hpos (test_rest left_first) _ ?_ hello_world.tail _ _ _ _ _
  intro clock reads cout resumed
  cases left_first <;>
  refine ⟨20, _, by
    simp [test_rest, wait_n, exec_cout, exec_seconds, exec_task, exec_call, World.set_point,
      World.modify_frame,
      submit_timer_task, steady_clock_now, priority_queue_push, await_transform_task,
      task_awaitable.await_ready, task_awaitable.await_suspend, task_awaitable.await_resume,
      task.ctor, World.promise]
    rfl, ?_⟩ <;>
  refine loop_returns_pop_any el hpos _ _ (by simp) ?_ <;>
  intro e he now rd _ <;>
  simp only [List.mem_cons, List.mem_singleton, List.not_mem_nil, or_false] at he <;>
  rcases he with rfl | rfl | rfl <;>
  ( refine ⟨20, _, by
      simp [coroutine_handle_resume, resume_with, exec_cout, exec_task, exec_return,
        World.set_point, World.modify_frame,
        World.return_value, task_promise_type.return_value, destroy_locals, task.dtor,
        coroutine_handle_destroy, await_transform_task, task_awaitable.await_ready,
        task_awaitable.await_suspend, task_awaitable.await_resume, World.promise]
      rfl, ?_⟩
    refine loop_returns_pop_any el hpos _ _ (by simp) ?_
    intro e he now rd _
    simp at he
    rcases he with rfl | rfl <;>
    ( refine ⟨20, _, by
        simp [coroutine_handle_resume, resume_with, exec_cout, exec_task, exec_return,
        World.set_point, World.modify_frame,
        World.return_value, task_promise_type.return_value, destroy_locals, task.dtor,
        coroutine_handle_destroy, await_transform_task, task_awaitable.await_ready,
        task_awaitable.await_suspend, task_awaitable.await_resume, World.promise]
        rfl, ?_⟩
      refine loop_returns_pop_any el hpos _ _ (by simp) ?_
      intro e he now rd _
      simp at he
      subst he
      refine ⟨20, _, by
        simp [coroutine_handle_resume, resume_with, exec_cout, exec_task, exec_return,
        World.set_point, World.modify_frame,
        World.return_value, task_promise_type.return_value, destroy_locals, task.dtor,
        coroutine_handle_destroy, await_transform_task, task_awaitable.await_ready,
        task_awaitable.await_suspend, task_awaitable.await_resume, World.promise]
        rfl, ?_⟩
      exact loop_returns_empty el _ _ (by simp) (by simp [task.get, task.ctor, World.promise]) ) )

/-! ## A stored value stays -/

theorem destroy_keeps (w w' : World) (x : Nat) (hd : coroutine_handle_destroy w x = some w')
    (i : Nat) :
    (w'.frames[i]?).map (fun f => (f.promise, f.point))
      = (w.frames[i]?).map (fun f => (f.promise, f.point)) := by
  unfold coroutine_handle_destroy at hd
  cases hx : w.frames[x]? with
  | none => simp [hx] at hd
  | some fx =>
    rw [hx] at hd
    simp only at hd
    by_cases hdes : fx.destroyed = true
    · simp [hdes] at hd
    · simp only [hdes, Bool.false_eq_true, if_false] at hd
      have : w' = w.modify_frame x (fun f => { f with destroyed := true }) := by
        cases hpt : fx.point <;> simp_all
      subst this
      rw [frames_modify_frame]
      by_cases hi : x = i
      · cases hf : w.frames[i]? <;> simp [hi, hf]
      · simp [hi]

theorem destroy_locals_keeps :
    ∀ (locals : List task) (w w' : World), destroy_locals w locals = some w' →
      ∀ (i : Nat), (w'.frames[i]?).map (fun f => (f.promise, f.point))
        = (w.frames[i]?).map (fun f => (f.promise, f.point))
  | [], w, w', h => by
    simp only [destroy_locals, Option.some.injEq] at h
    subst h
    intro i
    rfl
  | t :: ts, w, w', h => by
    unfold destroy_locals at h
    cases hd : t.dtor w with
    | none => simp [hd] at h
    | some w1 =>
      rw [hd] at h
      simp only at h
      intro i
      rw [destroy_locals_keeps ts w1 w' h i]
      unfold task.dtor at hd
      cases hh : t.handle with
      | none =>
        rw [hh] at hd
        simp only [Option.some.injEq] at hd
        subst hd
        rfl
      | some x =>
        rw [hh] at hd
        exact destroy_keeps _ _ _ hd i

theorem co_return_stores (el : Nat → Nat) (n h : Nat) (v : Int) (locals : List task)
    (w : World) (hok : (exec el n h (Coro.co_return v locals) w).st = status.ok) :
    ∀ (f : frame), (exec el n h (Coro.co_return v locals) w).world.frames[h]? = some f →
      f.point = suspend_point.at_final ∧ f.promise.value = some v := by
  cases n with
  | zero => simp [exec] at hok
  | succ n =>
    rw [exec_return] at hok ⊢
    cases hd : destroy_locals (w.return_value h v) locals with
    | none => simp [hd] at hok
    | some w2 =>
      simp only [hd] at hok ⊢
      cases hp : w2.promise h with
      | none => simp [hp] at hok
      | some p =>
        simp only [hp] at hok ⊢
        -- frame `h` after `return_value`, the destructors and the final suspension
        have h3 : ∃ f3 : frame, (w2.set_point h suspend_point.at_final).frames[h]? = some f3 ∧
            f3.point = suspend_point.at_final ∧ f3.promise.value = some v := by
          have hk := destroy_locals_keeps _ _ _ hd h
          unfold World.return_value at hk
          rw [frames_modify_frame] at hk
          simp only [if_true] at hk
          unfold World.promise at hp
          cases hf2 : w2.frames[h]? with
          | none => simp [hf2] at hp
          | some f2 =>
            rw [hf2] at hk
            cases hf0 : w.frames[h]? with
            | none => simp [hf0] at hk
            | some f0 =>
              rw [hf0] at hk
              simp only [Option.map_some', Option.some.injEq, Prod.mk.injEq] at hk
              refine ⟨{ f2 with point := suspend_point.at_final }, ?_, rfl, ?_⟩
              · unfold World.set_point
                rw [frames_modify_frame]
                simp [hf2]
              · simp [hk.1, task_promise_type.return_value]
        obtain ⟨f3, hf3, hpt3, hv3⟩ := h3
        have key : ∀ (w' : World), evolves none (w2.set_point h suspend_point.at_final) w' →
            ∀ (f : frame), w'.frames[h]? = some f →
              f.point = suspend_point.at_final ∧ f.promise.value = some v := by
          intro w' ev f hf
          obtain ⟨f', hf', st⟩ := ev.2.2 h f3 hf3
          rw [hf] at hf'
          simp only [Option.some.injEq] at hf'
          subst hf'
          obtain ⟨e1, e2⟩ := st.2.2 (by simp) (Or.inr hpt3)
          exact ⟨e1.trans hpt3, e2.trans hv3⟩
        cases hc : p.awaiting_coroutine with
        | none =>
          simp only [hc] at hok ⊢
          exact key _ (evolves_refl _ _)
        | some c =>
          simp only [hc] at hok ⊢
          exact key _ (resume_with_evolves _ (exec_evolves el n) _ _)

theorem loop_frames (el : Nat → Nat) :
    ∀ (n : Nat) (w : World) (i : Nat) (f : frame), w.frames[i]? = some f →
      ∃ f', (loop el n w).world.frames[i]? = some f' ∧ frame_step True f f' := by
  intro n
  induction n with
  | zero => intro w i f hf; exact ⟨f, by simpa [loop] using hf, frame_step_refl _ f⟩
  | succ n ih =>
    intro w i f hf
    unfold loop
    cases htop : priority_queue_top w.timers with
    | none => exact ⟨f, hf, frame_step_refl _ f⟩
    | some e =>
      simp only [steady_clock_now]
      by_cases hlt : e.target_time < w.clock + (el w.reads : Int)
      · simp only [hlt, if_true]
        have ev := coroutine_handle_resume_evolves el n e.handle
          { w with clock := w.clock + (el w.reads : Int), reads := w.reads + 1,
                   timers := priority_queue_pop w.timers,
                   resumed := w.resumed ++ [(e, w.clock + (el w.reads : Int))] }
        generalize coroutine_handle_resume el n e.handle _ = r at ev
        obtain ⟨st, w3⟩ := r
        obtain ⟨f1, hf1, s1⟩ := ev.2.2 i f hf
        have s1' : frame_step True f f1 :=
          frame_step_trans (fun _ => by simp) s1 (frame_step_refl _ f1)
        cases st with
        | ok =>
          obtain ⟨f2, hf2, s2⟩ := ih w3 i f1 hf1
          exact ⟨f2, hf2, frame_step_trans (fun x => x) s1' s2⟩
        | terminated x => exact ⟨f1, hf1, s1'⟩
        | undefined => exact ⟨f1, hf1, s1'⟩
        | out_of_fuel => exact ⟨f1, hf1, s1'⟩
      · simp only [hlt, if_false]
        exact ih (sleep_until { w with clock := w.clock + (el w.reads : Int),
                                       reads := w.reads + 1 } e.target_time) i f hf

theorem ready_of_final (w : World) (h : Nat) (f : frame) (v : Int)
    (hf : w.frames[h]? = some f) (hd : f.destroyed = false) (hv : f.promise.value = some v) :
    (task.ctor (some h)).is_ready w = true ∧
    ((task.ctor (some h)).get w).1 = get_result.value v := by
  simp [task.is_ready, task.get, task.ctor, World.promise, hf, hd, hv]

theorem ready_of_get (w : World) (t : task) (v : Int)
    (hg : (t.get w).1 = get_result.value v) : t.is_ready w = true := by
  unfold task.get at hg
  unfold task.is_ready
  cases hh : t.handle with
  | none => simp [hh] at hg
  | some h =>
    simp only [hh] at hg ⊢
    cases hp : w.promise h with
    | none => simp [hp] at hg
    | some p =>
      simp only [hp] at hg ⊢
      cases hv : p.value with
      | none => simp [hv] at hg
      | some v => rfl

/-- C1: (1) when a coroutine `h` executes `co_return v` and the call returns,
the task that owns `h`, as long as the frame was not destroyed, is ready and
`get` returns `v`; (2) a task that is ready with value `v` before `loop` runs
is, wherever `loop` stops and so once it has returned, still ready with
`get` returning `v`, as long as its frame was not destroyed; (3) on a clock
that advances, for every `k` the program that starts `wait_n(k)` and runs
`loop` sees `loop` return, after which the task is ready and `get` returns
`k`; (4) likewise `test()`, whichever operand of its sum is evaluated first,
yields 6. -/
theorem value_round_trip (el : Nat → Nat) :
    (∀ (n h : Nat) (v : Int) (locals : List task) (w : World) (f : frame),
      (exec el n h (Coro.co_return v locals) w).st = status.ok →
      (exec el n h (Coro.co_return v locals) w).world.frames[h]? = some f →
      f.destroyed = false →
      (task.ctor (some h)).is_ready (exec el n h (Coro.co_return v locals) w).world = true ∧
      ((task.ctor (some h)).get (exec el n h (Coro.co_return v locals) w).world).1
        = get_result.value v) ∧
    (∀ (m h : Nat) (v : Int) (w : World) (f f' : frame),
      w.frames[h]? = some f → f.point = suspend_point.at_final →
      f.promise.value = some v →
      (loop el m w).world.frames[h]? = some f' → f'.destroyed = false →
      (task.ctor (some h)).is_ready (loop el m w).world = true ∧
      ((task.ctor (some h)).get (loop el m w).world).1 = get_result.value v) ∧
    ((∀ i, 0 < el i) → ∀ (k clock : Int), ∃ fuel w1 w2,
      start el fuel (wait_n k) (World.init clock)
        = ({ st := status.ok, world := w1 }, task.ctor (some 0)) ∧
      loop el fuel w1 = { st := status.ok, world := w2 } ∧
      (task.ctor (some 0)).is_ready w2 = true ∧
      ((task.ctor (some 0)).get w2).1 = get_result.value k ∧
      main_ el fuel (wait_n k) clock = (status.ok, get_result.value k)) ∧
    ((∀ i, 0 < el i) → ∀ (clock : Int) (left_first : Bool), ∃ fuel w1 w2,
      start el fuel (test left_first) (World.init clock)
        = ({ st := status.ok, world := w1 }, task.ctor (some 0)) ∧
      loop el fuel w1 = { st := status.ok, world := w2 } ∧
      (task.ctor (some 0)).is_ready w2 = true ∧
      ((task.ctor (some 0)).get w2).1 = get_result.value (1 + 2 + 3) ∧
      main_ el fuel (test left_first) clock = (status.ok, get_result.value (1 + 2 + 3))) := by
  refine ⟨?_, ?_, ?_, ?_⟩
  · intro n h v locals w f hok hf hd
    obtain ⟨_, hv⟩ := co_return_stores el n h v locals w hok f hf
    exact ready_of_final _ h f v hf hd hv
  · intro m h v w f f' hf hpt hv hf' hd
    obtain ⟨f2, hf2, st⟩ := loop_frames el m w h f hf
    rw [hf'] at hf2
    simp only [Option.some.injEq] at hf2
    subst hf2
    obtain ⟨_, e2⟩ := st.2.2 trivial (Or.inr hpt)
    exact ready_of_final _ h f' v hf' hd (e2.trans hv)
  · intro hpos k clock
    obtain ⟨fuel, w1, w2, h1, h2, h3, h4⟩ := wait_n_yields el hpos k clock
    exact ⟨fuel, w1, w2, h1, h2, ready_of_get _ _ _ h3, h3, h4⟩
  · intro hpos clock left_first
    obtain ⟨fuel, w1, w2, h1, h2, h3, h4⟩ := test_yields el hpos clock left_first
    exact ⟨fuel, w1, w2, h1, h2, ready_of_get _ _ _ h3, h3, h4⟩

/-- Instance of C1 on the clock that advances one tick per reading: a
coroutine returning 5, a completed task kept through a run of `loop`,
`wait_n(2)` and `test()`. -/
theorem value_round_trip_witness :
    ((task.ctor (some 0)).is_ready
        (exec unit_clock 1 0 (Coro.co_return 5 []) (world_of [fresh_frame] [] 0)).world = true ∧
      ((task.ctor (some 0)).get
        (exec unit_clock 1 0 (Coro.co_return 5 []) (world_of [fresh_frame] [] 0)).world).1
        = get_result.value 5) ∧
    ((task.ctor (some 0)).is_ready
        (loop unit_clock 5 (world_of [completed_frame 5, sleeping_frame 1]
          [{ target_time := 5, handle := some 1 }] 6)).world = true ∧
      ((task.ctor (some 0)).get
        (loop unit_clock 5 (world_of [completed_frame 5, sleeping_frame 1]
          [{ target_time := 5, handle := some 1 }] 6)).world).1 = get_result.value 5) ∧
    (∃ fuel, main_ unit_clock fuel (wait_n 2) 0 = (status.ok, get_result.value 2)) ∧
    (∃ fuel, main_ unit_clock fuel (test true) 0 = (status.ok, get_result.value (1 + 2 + 3))) :=
  ⟨(value_round_trip unit_clock).1 1 0 5 [] (world_of [fresh_frame] [] 0)
      { promise := { value := some 5, awaiting_coroutine := none },
        point := suspend_point.at_final, destroyed := false } rfl rfl rfl,
   (value_round_trip unit_clock).2.1 5 0 5
      (world_of [completed_frame 5, sleeping_frame 1] [{ target_time := 5, handle := some 1 }] 6)
      (completed_frame 5) (completed_frame 5) rfl rfl rfl rfl rfl,
   ((value_round_trip unit_clock).2.2.1 (fun _ => Nat.one_pos) 2 0).elim
      fun fuel h => h.elim fun _ h => h.elim fun _ h => ⟨fuel, h.2.2.2.2⟩,
   ((value_round_trip unit_clock).2.2.2 (fun _ => Nat.one_pos) 0 true).elim
      fun fuel h => h.elim fun _ h => h.elim fun _ h => ⟨fuel, h.2.2.2.2⟩⟩

/-- C5, as the code has it: when a live task `x` that has not completed and
has no waiter is awaited by `h1`, the await suspends and registers `h1` as the
waiter of `x`; from then on, wherever a run of `loop` from that world stops
(whether or not `x` has completed meanwhile), if the frame of `x` is still
live its waiter is still `h1`, and awaiting `x` again ends in `std::terminate`
with "coroutine already awaited", the world, and with it the registration,
staying as it was. -/
theorem second_await_rejected (el : Nat → Nat) (n n2 h1 h2 x : Nat) (k1 k2 : Int → Coro)
    (w : World) (p : task_promise_type) (hp : w.promise x = some p)
    (hv : p.value = none) (hw : p.awaiting_coroutine = none) :
    (exec el (n + 1) h1 (Coro.co_await_task { handle := some x } k1) w).st = status.ok ∧
    (∃ p1, (exec el (n + 1) h1 (Coro.co_await_task { handle := some x } k1) w).world.promise x
        = some p1 ∧ p1.awaiting_coroutine = some h1) ∧
    ∀ (m : Nat) (p2 : task_promise_type),
      (loop el m (exec el (n + 1) h1 (Coro.co_await_task { handle := some x } k1) w).world
        ).world.promise x = some p2 →
      p2.awaiting_coroutine = some h1 ∧
      exec el (n2 + 1) h2 (Coro.co_await_task { handle := some x } k2)
          (loop el m (exec el (n + 1) h1 (Coro.co_await_task { handle := some x } k1) w).world
            ).world
        = { st := status.terminated { what := "coroutine already awaited" },
            world := (loop el m
              (exec el (n + 1) h1 (Coro.co_await_task { handle := some x } k1) w).world).world } := by
  have hp' : (w.set_point h1 (suspend_point.at_task { handle := some x } k1)).promise x = some p := by
    rw [promise_set_point]; exact hp
  have hex : exec el (n + 1) h1 (Coro.co_await_task { handle := some x } k1) w
      = { st := status.ok,
          world := (w.set_point h1 (suspend_point.at_task { handle := some x } k1)).modify_frame x
            (fun f => { f with promise := { f.promise with awaiting_coroutine := some h1 } }) } := by
    simp [exec, await_transform_task, task_awaitable.await_ready,
      task_awaitable.await_suspend, hp, hp', hv, hw]
  rw [hex]
  simp only
  have hfx : ∃ fx : frame,
      ((w.set_point h1 (suspend_point.at_task { handle := some x } k1)).modify_frame x
        (fun f => { f with promise := { f.promise with awaiting_coroutine := some h1 } })
        ).frames[x]? = some fx ∧ fx.promise.awaiting_coroutine = some h1 ∧
        fx.destroyed = false := by
    unfold World.promise at hp'
    cases hf : (w.set_point h1 (suspend_point.at_task { handle := some x } k1)).frames[x]? with
    | none => simp [hf] at hp'
    | some f0 =>
      rw [hf] at hp'
      by_cases hd : f0.destroyed = true
      · simp [hd] at hp'
      · refine ⟨{ f0 with promise := { f0.promise with awaiting_coroutine := some h1 } },
          by rw [frames_modify_frame]; simp [hf], rfl, by simpa using hd⟩
  obtain ⟨fx, hfx, haw, hdx⟩ := hfx
  refine ⟨trivial, ⟨fx.promise, by simp [World.promise, hfx, hdx], haw⟩, ?_⟩
  intro m p2 hp2
  obtain ⟨f2, hf2, st⟩ := loop_frames el m _ x fx hfx
  have hp2' := hp2
  unfold World.promise at hp2'
  rw [hf2] at hp2'
  have hpa : p2.awaiting_coroutine = some h1 := by
    by_cases hd : f2.destroyed = true
    · simp [hd] at hp2'
    · simp only [hd, Bool.false_eq_true, if_false, Option.some.injEq] at hp2'
      rw [← hp2']
      exact st.1 h1 haw
  refine ⟨hpa, ?_⟩
  simp [exec, await_transform_task, hp2, hpa]

/-- Instance of C5: frame 1 awaits the live, not completed frame 0; a later
await by frame 2 ends in `std::terminate`. -/
theorem second_await_rejected_witness :
    (exec unit_clock 1 2
        (Coro.co_await_task { handle := some 0 } fun v => Coro.co_return v [])
        (loop unit_clock 0
          (exec unit_clock 1 1
            (Coro.co_await_task { handle := some 0 } fun v => Coro.co_return v [])
            (world_of [sleeping_frame 1, fresh_frame, fresh_frame] [] 0)).world).world).st
      = status.terminated { what := "coroutine already awaited" } :=
  congrArg Res.st
    (((second_await_rejected unit_clock 0 0 1 2 0 (fun v => Coro.co_return v [])
      (fun v => Coro.co_return v [])
      (world_of [sleeping_frame 1, fresh_frame, fresh_frame] [] 0)
      { value := none, awaiting_coroutine := none } rfl rfl rfl).2.2 0
      { value := none, awaiting_coroutine := some 1 } rfl).2)

/-! ## Consistency is kept by every step -/

end Example
